import Mathlib

/-!
# Verification of the data-trains-collector synchronization pipeline

Shallow embedding of `src/main.py` (the single source file of
`dwaldmannDE/data-trains-collector`).

Modelling conventions, stated once here and referenced below:

* The backing store (the "internal API") is modelled as a deterministic,
  reliable key-value service: a list of entities plus an id counter.  The
  HTTP-failure branches of the reconciliation functions (`logging.error` on a
  non-ok response from the backing store, after which the function returns
  `None`) are not modelled; every backing-store request succeeds at the HTTP
  level.  External fetches (trip detail, composition) keep their failure
  modes, since the claims are about those.
* A record's `id` and `url` both uniquely identify it in the backing store
  (Django REST framework hyperlinked records); the model uses the numeric
  `id` for both, so a field that the source fills with `record['url']` is
  modelled with the record's id.
* Service dates are modelled as `Nat`; `date.strftime('%Y-%m-%d')` is the
  identity on this representation (the source only ever formats and compares
  whole days).
* Geocoordinates are modelled as `Int`; the pipeline never computes with
  them, it only stores and compares them.
* Python `result['cancelled'] is not cancelled` compares the two interned
  booleans by identity, which on `bool` coincides with inequality; it is
  modelled as `≠` on `Bool`.
* Every observable interaction with the backing store or an external service
  is recorded as an `Event`, annotated with the store state at the moment the
  request is issued.
-/

namespace TrainsCollector

/-- Natural (unique) lookup keys, one per entity kind, exactly as the source
builds the query parameters of each existence lookup:
operators by `name`; lines by `(operator, product, number)`; stations by
`eva_number`; trains by `(line, date, tripID)`; stopovers by
`(train, stop_index)`; remarks by `(train, message)`; compositions by
`(train)`. -/
inductive EKey
  | operator (name : String)
  | line (operatorId : Nat) (product : String) (number : Nat)
  | station (evaNumber : Nat)
  | train (lineId : Nat) (date : Nat) (tripId : String)
  | stopover (trainId : Nat) (stopIndex : Nat)
  | remark (trainId : Nat) (message : String)
  | comp (trainId : Nat)
  deriving DecidableEq

/-- Stored entity payloads, mirroring the `data` dictionaries the source
POSTs for each entity kind. -/
inductive EntityData
  | operator (name : String)
  | line (operatorId : Nat) (product : String) (number : Nat) (name : String)
  | station (evaNumber : Nat) (name : String) (lng : Int) (lat : Int)
  | train (lineId : Nat) (date : Nat) (tripId : String) (cancelled : Bool)
      (originId : Nat) (destinationId : Nat) (name : String)
  | stopover (trainId : Nat) (stopIndex : Nat) (stationId : Nat)
      (platform : Option String) (departurePlanned : Option String)
      (departureActual : Option String) (arrivalPlanned : Option String)
      (arrivalActual : Option String)
  | remark (trainId : Nat) (message : String)
  | comp (trainId : Nat) (coachSequence : String)
  deriving DecidableEq

/-- The natural key of a stored payload.  The lookup parameters of each
`get_or_create_*` / `create_or_update_*` function are built from the same
values as the corresponding create payload, so the key is a function of the
payload. -/
def EntityData.key : EntityData → EKey
  | .operator n => .operator n
  | .line o p num _ => .line o p num
  | .station eva _ _ _ => .station eva
  | .train l d t _ _ _ _ => .train l d t
  | .stopover t i _ _ _ _ _ _ => .stopover t i
  | .remark t m => .remark t m
  | .comp t _ => .comp t

/-- The effect of the only PATCH the source ever issues
(`data = {'cancelled': cancelled}` on a train record): on a train payload it
replaces the cancelled flag and nothing else; on any other payload it is the
identity (no other endpoint is ever patched). -/
def EntityData.setCancelled : EntityData → Bool → EntityData
  | .train l d t _ o dst nm, b => .train l d t b o dst nm
  | d, _ => d

/-- The `cancelled` field of a record, `false` for kinds without one. -/
def EntityData.cancelledOf : EntityData → Bool
  | .train _ _ _ c _ _ _ => c
  | _ => false

def EntityData.isOperator : EntityData → Bool
  | .operator _ => true
  | _ => false

def EntityData.isLine : EntityData → Bool
  | .line _ _ _ _ => true
  | _ => false

def EntityData.isStation : EntityData → Bool
  | .station _ _ _ _ => true
  | _ => false

def EntityData.isTrain : EntityData → Bool
  | .train _ _ _ _ _ _ _ => true
  | _ => false

/-- A record of the backing store: backend-assigned id plus payload. -/
structure Entity where
  id : Nat
  data : EntityData
  deriving DecidableEq

/-- The backing store: its records, in insertion order (a `POST` appends at
the end), and the next id it will assign. -/
structure Store where
  entities : List Entity
  nextId : Nat
  deriving DecidableEq

/-- Observable requests issued by the pipeline.  `lookup` is a filtered GET
against the backing store with the number of results it returned; `create`
is a POST (with the assigned id and the posted payload); `patch` is the
train-cancelled PATCH, carrying its entire payload (the single `cancelled`
field); `tripFetch` is a `GET /trips/{id}` against the transport API;
`compFetch` is a coach-sequence request with its three parameters. -/
inductive Event
  | lookup (k : EKey) (count : Nat)
  | create (id : Nat) (d : EntityData)
  | patch (id : Nat) (cancelled : Bool)
  | tripFetch (tripId : String)
  | compFetch (number : Nat) (evaNumber : Nat) (departure : Option String)
  deriving DecidableEq

/-- A trace of events, each annotated with the store state at the moment the
request was issued. -/
abbrev Trace := List (Event × Store)

def keyMatches (k : EKey) (e : Entity) : Bool :=
  decide (e.data.key = k)

/-- The result list of the backing store's filtered GET for key `k`. -/
def matchesFor (k : EKey) (s : Store) : List Entity :=
  s.entities.filter (keyMatches k)

/-- `results[0]` of the filtered GET, when any result exists. -/
def firstMatch (k : EKey) (s : Store) : Option Entity :=
  (matchesFor k s).head?

/-- The common get-or-create pattern of `get_or_create_operator`,
`get_or_create_line`, `get_or_create_station`, `get_or_create_remark` and
`get_or_create_composition` (and of the stopover creation path, whose found
branch performs no update — the update code in the source is commented out):
GET by the natural key of `d`; if `count > 0` return `results[0]`, else POST
`d` and return the created record. -/
def gco (d : EntityData) (s : Store) : Entity × Store × Trace :=
  match matchesFor d.key s with
  | r :: rest => (r, s, [(Event.lookup d.key (r :: rest).length, s)])
  | [] =>
      let r : Entity := ⟨s.nextId, d⟩
      (r, ⟨s.entities ++ [r], s.nextId + 1⟩,
        [(Event.lookup d.key 0, s), (Event.create s.nextId d, s)])

/-- Python evaluates the default expression of
`def create_or_update_train(..., date: datetime = datetime.today())` once,
when the `def` statement runs at process start.  `defDate` is that frozen
value; `now` is the wall-clock date at call time, which the source never
consults when the argument is omitted. -/
def effectiveTrainDate (defDate : Nat) (dateArg : Option Nat) (now : Nat) : Nat :=
  dateArg.getD defDate

/-- `'{} {}'.format(line['product'], line['number'])` — the name given to a
newly created train. -/
def trainName (line : Entity) : String :=
  match line.data with
  | .line _ product number _ => product ++ " " ++ toString number
  | _ => ""

/-- `line['number']`, as passed to the composition fetch. -/
def lineNumberOf (line : Entity) : Nat :=
  match line.data with
  | .line _ _ number _ => number
  | _ => 0

/-- `create_or_update_train` (src/main.py lines 442-494): GET trains filtered
by `(line, date, tripID)`; if found, PATCH `{'cancelled': cancelled}` exactly
when the stored flag differs (`is not` on booleans = inequality) and return
the (possibly patched) record; otherwise POST the full payload.  The PATCH
hits `result['url']`, i.e. the record with the found id; patching a train
payload changes only its cancelled flag. -/
def create_or_update_train (line : Entity) (tripId : String)
    (origin destination : Entity) (cancelled : Bool) (dateArg : Option Nat)
    (defDate now : Nat) (s : Store) : Entity × Store × Trace :=
  let date := effectiveTrainDate defDate dateArg now
  let k : EKey := .train line.id date tripId
  match matchesFor k s with
  | r :: rest =>
      if r.data.cancelledOf = cancelled then
        (r, s, [(Event.lookup k (r :: rest).length, s)])
      else
        (⟨r.id, r.data.setCancelled cancelled⟩,
          ⟨s.entities.map (fun e =>
              if e.id = r.id then ⟨e.id, e.data.setCancelled cancelled⟩ else e),
            s.nextId⟩,
          [(Event.lookup k (r :: rest).length, s), (Event.patch r.id cancelled, s)])
  | [] =>
      let d : EntityData :=
        .train line.id date tripId cancelled origin.id destination.id (trainName line)
      (⟨s.nextId, d⟩, ⟨s.entities ++ [⟨s.nextId, d⟩], s.nextId + 1⟩,
        [(Event.lookup k 0, s), (Event.create s.nextId d, s)])

/-- A `stop` object of a HAFAS stopover / trip endpoint. -/
structure StopPlace where
  id : Nat
  name : String
  lng : Int
  lat : Int
  deriving DecidableEq

/-- One entry of `train_details['stopovers']`.  `cancelledKey` is the value
of the `'cancelled'` dictionary key when that key is present (`none` = key
absent); the orchestrator tests only the key's presence. -/
structure StopoverData where
  stop : StopPlace
  cancelledKey : Option Bool
  plannedDeparturePlatform : Option String
  plannedDeparture : Option String
  departure : Option String
  plannedArrival : Option String
  arrival : Option String
  deriving DecidableEq

/-- One entry of `train_details['remarks']`. -/
structure RemarkData where
  text : String
  deriving DecidableEq

/-- The decoded body of a successful `GET /trips/{id}`. -/
structure TripDetails where
  origin : StopPlace
  destination : StopPlace
  stopovers : List StopoverData
  remarks : List RemarkData
  deriving DecidableEq

/-- One board entry of `train_list`.  `tripId` is the `'tripId'` key the
orchestrator reads at src/main.py line 675; `getTripID` is the value of
`item.get('tripID')` (capital D) read by the filter at line 665 — `none`
when that key is absent, which is the case for HAFAS board entries. -/
structure BoardItem where
  tripId : String
  getTripID : Option String
  lineName : String
  operatorName : String
  productName : String
  fahrtNr : Nat
  deriving DecidableEq

/-- Exception classes `get_train_trip` can re-raise. -/
inductive TErr
  | connection
  | timeout
  | other
  deriving DecidableEq

/-- Outcome of the HTTP exchange underlying one `GET /trips/{id}`. -/
inductive TripFetchOutcome
  | ok (td : TripDetails)
  | httpError (status : Nat)
  | transportError (e : TErr)
  deriving DecidableEq

/-- `get_train_trip` (src/main.py lines 190-245): on a successful response
return its JSON body; every raised exception is re-raised
(`except ...: raise e` for every class); on a non-success status the
function falls through its `if response.ok:` and implicitly returns `None`. -/
def get_train_trip (o : TripFetchOutcome) : Except TErr (Option TripDetails) :=
  match o with
  | .ok td => .ok (some td)
  | .httpError _ => .ok none
  | .transportError e => .error e

/-- Outcome of the HTTP exchange underlying one board request. -/
inductive BoardOutcome
  | ok (entries : List BoardItem)
  | httpError (status : Nat)
  | transportError (e : TErr)
  deriving DecidableEq

/-- `get_departure_board` (src/main.py lines 52-106): `result = []`; on a
successful response the JSON body; any exception is caught and printed,
leaving the empty result; a non-success status also leaves it. -/
def get_departure_board (o : BoardOutcome) : List BoardItem :=
  match o with
  | .ok entries => entries
  | .httpError _ => []
  | .transportError _ => []

/-- `get_arrival_board` (src/main.py lines 109-164) is line-for-line the same
handling as `get_departure_board`. -/
def get_arrival_board (o : BoardOutcome) : List BoardItem :=
  match o with
  | .ok entries => entries
  | .httpError _ => []
  | .transportError _ => []

/-- `get_time_table` (src/main.py lines 248-271): concatenation of the two
boards, no deduplication at this step. -/
def get_time_table (dep arr : BoardOutcome) : List BoardItem :=
  get_departure_board dep ++ get_arrival_board arr

/-- Errors that can propagate out of one iteration of the per-trip loop of
`main` (src/main.py lines 670-718); they are caught only by the cycle-level
`except` at line 719. `fetch`: `get_train_trip` re-raised a transport error.
`typeErrorNoDetail`: `get_train_trip` returned `None` (non-success status)
and `train_details['origin']` at line 687 raised `TypeError`.
`indexEmptyStopovers`: `train_details['stopovers'][0]` at line 715 raised
`IndexError` while building the composition-fetch arguments. -/
inductive PErr
  | fetch (e : TErr)
  | typeErrorNoDetail
  | indexEmptyStopovers
  deriving DecidableEq

/-- One trip's environment: the board entry driving it, the outcome of its
trip-detail exchange, and what `get_composition` would return if called
(`none` covers both a failed composition fetch — `get_composition` catches
every exception and returns `None` — and absent upstream data; a returned
group list is never empty because the source checks its truthiness before
returning it). -/
structure TripInput where
  item : BoardItem
  detail : TripFetchOutcome
  comp : Option String
  deriving DecidableEq

/-- The station payload built from a `stop` object (`eva_number`, `name`,
`lng`, `lat` — src/main.py lines 422-427 via the call sites). -/
def stationDataOf (sp : StopPlace) : EntityData :=
  .station sp.id sp.name sp.lng sp.lat

/-- The stopover payload of `create_or_update_stopover` (src/main.py lines
552-561); each `x if x is not None else None` of the source is the
identity on the optional value. -/
def stopoverDataOf (train : Entity) (idx : Nat) (station : Entity)
    (so : StopoverData) : EntityData :=
  .stopover train.id idx station.id so.plannedDeparturePlatform
    so.plannedDeparture so.departure so.plannedArrival so.arrival

/-- `create_or_update_stopover` (src/main.py lines 497-573): first
get-or-creates the stopover's station, then get-or-creates the stopover by
`(train, stop_index)`; the found branch performs no update (the PATCH code in
the source is commented out). -/
def create_or_update_stopover (idx : Nat) (so : StopoverData) (train : Entity)
    (s : Store) : Entity × Store × Trace :=
  let (station, s1, tr1) := gco (stationDataOf so.stop) s
  let (r, s2, tr2) := gco (stopoverDataOf train idx station so) s1
  (r, s2, tr1 ++ tr2)

/-- The stopover loop of `main` (src/main.py lines 700-703):
`for idx, stopover in enumerate(train_details['stopovers'])`, starting at 0,
processing an entry only when it has no `'cancelled'` key; a skipped entry
still consumes its index. `i` is the index of the first element of `l` in
the full fetched list. -/
def stopoversFold (train : Entity) (i : Nat) (l : List StopoverData)
    (s : Store) : Store × Trace :=
  match l with
  | [] => (s, [])
  | so :: rest =>
      if so.cancelledKey.isSome then stopoversFold train (i + 1) rest s
      else
        let (_, s1, tr1) := create_or_update_stopover i so train s
        let (s2, tr2) := stopoversFold train (i + 1) rest s1
        (s2, tr1 ++ tr2)

/-- The remark loop of `main` (src/main.py lines 707-708). -/
def remarksFold (train : Entity) (l : List RemarkData) (s : Store) :
    Store × Trace :=
  match l with
  | [] => (s, [])
  | r :: rest =>
      let (_, s1, tr1) := gco (.remark train.id r.text) s
      let (s2, tr2) := remarksFold train rest s1
      (s2, tr1 ++ tr2)

/-- The composition block of `main` (src/main.py lines 712-718): guarded by
`if not train['cancelled']:`.  The arguments of `get_composition` are
evaluated first; `train_details['stopovers'][0]` raises `IndexError` on an
empty stopover list before any fetch happens.  Then the coach sequence is
fetched, and only a truthy result is get-or-created. -/
def compositionPhase (line train : Entity) (td : TripDetails)
    (compResult : Option String) (s : Store) : Store × Trace × Option PErr :=
  if train.data.cancelledOf then (s, [], none)
  else
    match td.stopovers.head? with
    | none => (s, [], some .indexEmptyStopovers)
    | some so0 =>
        let fetchEv : Event × Store :=
          (Event.compFetch (lineNumberOf line) td.origin.id so0.plannedDeparture, s)
        match compResult with
        | some groups =>
            let (_, s1, tr1) := gco (.comp train.id groups) s
            (s1, fetchEv :: tr1, none)
        | none => (s, [fetchEv], none)

/-- The first two reconciliation steps of one trip iteration (src/main.py
lines 677-683): the operator is get-or-created from the board entry, then
the line from the returned operator (`operator['id']` / `operator['url']`)
and the board entry's product, number and name.  Returns the reconciled
line record. -/
def opLinePhase (item : BoardItem) (s : Store) : Entity × Store × Trace :=
  let (op, s1, tr1) := gco (.operator item.operatorName) s
  let (line, s2, tr2) :=
    gco (.line op.id item.productName item.fahrtNr item.lineName) s1
  (line, s2, tr1 ++ tr2)

/-- Step 1 of the detail-dependent pipeline: the origin station
(src/main.py lines 687-688). -/
def dpOrigin (td : TripDetails) (s : Store) : Entity × Store × Trace :=
  gco (stationDataOf td.origin) s

/-- Step 2: the destination station (src/main.py lines 691-692). -/
def dpDest (td : TripDetails) (s : Store) : Entity × Store × Trace :=
  gco (stationDataOf td.destination) (dpOrigin td s).2.1

/-- Step 3: the train (src/main.py lines 695-696), called with `cancelled`
and `date` omitted. -/
def dpTrain (defDate now : Nat) (item : BoardItem) (line : Entity)
    (td : TripDetails) (s : Store) : Entity × Store × Trace :=
  create_or_update_train line item.tripId (dpOrigin td s).1 (dpDest td s).1
    false none defDate now (dpDest td s).2.1

/-- Step 4: the stopover loop (src/main.py lines 700-703). -/
def dpStops (defDate now : Nat) (item : BoardItem) (line : Entity)
    (td : TripDetails) (s : Store) : Store × Trace :=
  stopoversFold (dpTrain defDate now item line td s).1 0 td.stopovers
    (dpTrain defDate now item line td s).2.1

/-- Step 5: the remark loop (src/main.py lines 707-708). -/
def dpRemarks (defDate now : Nat) (item : BoardItem) (line : Entity)
    (td : TripDetails) (s : Store) : Store × Trace :=
  remarksFold (dpTrain defDate now item line td s).1 td.remarks
    (dpStops defDate now item line td s).1

/-- Step 6: the composition block (src/main.py lines 712-718). -/
def dpComp (defDate now : Nat) (item : BoardItem) (line : Entity)
    (td : TripDetails) (comp : Option String) (s : Store) :
    Store × Trace × Option PErr :=
  compositionPhase line (dpTrain defDate now item line td s).1 td comp
    (dpRemarks defDate now item line td s).1

/-- The steps of one trip iteration that subscript the fetched trip detail
(src/main.py lines 686-718), assembled from the six named steps above:
origin and destination stations, the train, the stopover loop, the remark
loop, and the composition block, each running on the store state the
previous step left behind. -/
def detailPhase (defDate now : Nat) (item : BoardItem) (line : Entity)
    (td : TripDetails) (comp : Option String) (s : Store) :
    Store × Trace × Option PErr :=
  ((dpComp defDate now item line td comp s).1,
    (dpOrigin td s).2.2 ++ (dpDest td s).2.2 ++
      (dpTrain defDate now item line td s).2.2 ++
      (dpStops defDate now item line td s).2 ++
      (dpRemarks defDate now item line td s).2 ++
      (dpComp defDate now item line td comp s).2.1,
    (dpComp defDate now item line td comp s).2.2)

/-- One iteration of the per-trip loop of `main` (src/main.py lines
670-718): the trip detail is fetched first; the operator and line are
reconciled before the detail dict is first subscripted (so they are
reconciled even when `get_train_trip` returned `None`); then the
detail-dependent steps.  The third component is the exception, if any,
propagating out of this iteration. -/
def reconcileTrip (defDate now : Nat) (t : TripInput) (s : Store) :
    Store × Trace × Option PErr :=
  let fetchEv : Event × Store := (Event.tripFetch t.item.tripId, s)
  match get_train_trip t.detail with
  | .error e => (s, [fetchEv], some (.fetch e))
  | .ok od =>
      let (line, s2, tr12) := opLinePhase t.item s
      match od with
      | none => (s2, fetchEv :: tr12, some .typeErrorNoDetail)
      | some td =>
          let (s8, tr, err) := detailPhase defDate now t.item line td t.comp s2
          (s8, fetchEv :: (tr12 ++ tr), err)

/-- Python `==` between a board-entry dictionary and the value of
`item.get('tripID')` (a string or `None`): always false, a dict never equals
a string or `None`. -/
def itemEqTripID (_ : TripInput) (_ : Option String) : Bool :=
  false

/-- The deduplication step of `main` (src/main.py lines 663-666):

`filtered_train_list = []`
`filtered_train_list = [item for item in train_list if item.get('tripID')
not in filtered_train_list]`

Inside the comprehension the name `filtered_train_list` still refers to the
prior binding, the empty list, so the membership test is
`item.get('tripID') not in []` — true for every item. -/
def filtered_train_list (train_list : List TripInput) : List TripInput :=
  train_list.filter
    (fun item =>
      !(([] : List TripInput).any (fun prev => itemEqTripID prev item.item.getTripID)))

/-- The per-trip loop of `main` (src/main.py lines 670-718).  A raised
exception propagates out of the `for` statement: the remaining iterations do
not run, and the store mutations already performed persist. -/
def runTrips (defDate now : Nat) (l : List TripInput) (s : Store) :
    Store × Trace × Option PErr :=
  match l with
  | [] => (s, [], none)
  | t :: rest =>
      let (s1, tr1, err) := reconcileTrip defDate now t s
      match err with
      | some e => (s1, tr1, some e)
      | none =>
          let (s2, tr2, err2) := runTrips defDate now rest s1
          (s2, tr1 ++ tr2, err2)

/-- One sync cycle of `main` from the aggregated `train_list` on
(src/main.py lines 663-723): the (inoperative) deduplication, then the trip
loop; the cycle-level `try`/`except` at lines 649/719 catches any exception
escaping the loop, so the cycle always returns and the process proceeds to
the next trigger. -/
def mainCycle (defDate now : Nat) (train_list : List TripInput) (s : Store) :
    Store × Trace :=
  let (s1, tr, _) := runTrips defDate now (filtered_train_list train_list) s
  (s1, tr)

/-- An event is a create iff it is a POST to the backing store. -/
def eventOk : Event → Bool
  | .create _ _ => false
  | .lookup _ c => decide (0 < c)
  | _ => true

/-- Every event of the trace is a non-create, and every lookup in it found
at least one record. -/
def FoundOnly (tr : Trace) : Prop :=
  ∀ p ∈ tr, eventOk p.1 = true

instance : DecidablePred FoundOnly := fun tr =>
  inferInstanceAs (Decidable (∀ p ∈ tr, eventOk p.1 = true))

/-- `s` holds a record with id `i` whose payload satisfies `p`. -/
def hasEnt (s : Store) (i : Nat) (p : EntityData → Bool) : Prop :=
  ∃ e ∈ s.entities, e.id = i ∧ p e.data = true

/-- Referential-integrity condition for an event issued against store `st`:
the payload of a created child references only parents that already exist in
`st` at that moment. -/
def parentsOk : Event → Store → Prop
  | .create _ (.line opId _ _ _), st => hasEnt st opId EntityData.isOperator
  | .create _ (.train lineId _ _ _ oId dId _), st =>
      hasEnt st lineId EntityData.isLine ∧ hasEnt st oId EntityData.isStation ∧
        hasEnt st dId EntityData.isStation
  | .create _ (.stopover tId _ _ _ _ _ _ _), st => hasEnt st tId EntityData.isTrain
  | .create _ (.remark tId _), st => hasEnt st tId EntityData.isTrain
  | .create _ (.comp tId _), st => hasEnt st tId EntityData.isTrain
  | _, _ => True

/-- Record compatibility across repeated runs: same id, and payload equal up
to the cancelled flag (the only stored field the pipeline ever rewrites). -/
def entCompat (e e' : Entity) : Prop :=
  e'.id = e.id ∧ ∃ b, e'.data = e.data.setCancelled b

/-- `s'` is a later state of the same backing store as `s`: whatever a
filtered GET found first in `s` it still finds first in `s'` (with the same
id, up to the cancelled flag), and every record of `s` is still present
(same id, up to the cancelled flag). -/
def Evolves (s s' : Store) : Prop :=
  (∀ k r, firstMatch k s = some r →
      ∃ r', firstMatch k s' = some r' ∧ entCompat r r') ∧
  (∀ e ∈ s.entities, ∃ e' ∈ s'.entities, entCompat e e')

/-! ## Basic algebra of payloads and keys -/

theorem setCancelled_key (d : EntityData) (b : Bool) :
    (d.setCancelled b).key = d.key := by
  cases d <;> rfl

theorem setCancelled_self (d : EntityData) :
    d.setCancelled d.cancelledOf = d := by
  cases d <;> rfl

theorem setCancelled_setCancelled (d : EntityData) (b b' : Bool) :
    (d.setCancelled b).setCancelled b' = d.setCancelled b' := by
  cases d <;> rfl

theorem isOperator_setCancelled (d : EntityData) (b : Bool) :
    (d.setCancelled b).isOperator = d.isOperator := by
  cases d <;> rfl

theorem isLine_setCancelled (d : EntityData) (b : Bool) :
    (d.setCancelled b).isLine = d.isLine := by
  cases d <;> rfl

theorem isStation_setCancelled (d : EntityData) (b : Bool) :
    (d.setCancelled b).isStation = d.isStation := by
  cases d <;> rfl

theorem isTrain_setCancelled (d : EntityData) (b : Bool) :
    (d.setCancelled b).isTrain = d.isTrain := by
  cases d <;> rfl

theorem isOperator_of_key {d : EntityData} {n : String}
    (h : d.key = .operator n) : d.isOperator = true := by
  cases d <;> simp_all [EntityData.key, EntityData.isOperator]

theorem isLine_of_key {d : EntityData} {o : Nat} {p : String} {num : Nat}
    (h : d.key = .line o p num) : d.isLine = true := by
  cases d <;> simp_all [EntityData.key, EntityData.isLine]

theorem isStation_of_key {d : EntityData} {eva : Nat}
    (h : d.key = .station eva) : d.isStation = true := by
  cases d <;> simp_all [EntityData.key, EntityData.isStation]

theorem isTrain_of_key {d : EntityData} {l dt : Nat} {t : String}
    (h : d.key = .train l dt t) : d.isTrain = true := by
  cases d <;> simp_all [EntityData.key, EntityData.isTrain]

theorem setCancelled_of_isTrain_false {d : EntityData} (h : d.isTrain = false)
    (b : Bool) : d.setCancelled b = d := by
  cases d <;> simp_all [EntityData.isTrain, EntityData.setCancelled]

theorem cancelledOf_setCancelled_of_isTrain {d : EntityData}
    (h : d.isTrain = true) (b : Bool) : (d.setCancelled b).cancelledOf = b := by
  cases d <;> simp_all [EntityData.isTrain, EntityData.setCancelled, EntityData.cancelledOf]

theorem isLine_isTrain_false {d : EntityData} (h : d.isLine = true) :
    d.isTrain = false := by
  cases d <;> simp_all [EntityData.isLine, EntityData.isTrain]

theorem isStation_isTrain_false {d : EntityData} (h : d.isStation = true) :
    d.isTrain = false := by
  cases d <;> simp_all [EntityData.isStation, EntityData.isTrain]

/-! ## Record compatibility and store evolution -/

theorem entCompat_refl (e : Entity) : entCompat e e :=
  ⟨rfl, e.data.cancelledOf, (setCancelled_self e.data).symm⟩

theorem entCompat_trans {e e' e'' : Entity} (h : entCompat e e')
    (h' : entCompat e' e'') : entCompat e e'' := by
  obtain ⟨hid, b, hb⟩ := h
  obtain ⟨hid', b', hb'⟩ := h'
  exact ⟨hid'.trans hid, b', by rw [hb', hb, setCancelled_setCancelled]⟩

theorem evolves_refl (s : Store) : Evolves s s :=
  ⟨fun _ r h => ⟨r, h, entCompat_refl r⟩,
    fun e he => ⟨e, he, entCompat_refl e⟩⟩

theorem evolves_trans {s s' s'' : Store} (h : Evolves s s')
    (h' : Evolves s' s'') : Evolves s s'' := by
  constructor
  · intro k r hr
    obtain ⟨r', hr', hc⟩ := h.1 k r hr
    obtain ⟨r'', hr'', hc'⟩ := h'.1 k r' hr'
    exact ⟨r'', hr'', entCompat_trans hc hc'⟩
  · intro e he
    obtain ⟨e', he', hc⟩ := h.2 e he
    obtain ⟨e'', he'', hc'⟩ := h'.2 e' he'
    exact ⟨e'', he'', entCompat_trans hc hc'⟩

theorem matchesFor_append (k : EKey) (l l' : List Entity) (n : Nat) :
    matchesFor k ⟨l ++ l', n⟩ =
      matchesFor k ⟨l, n⟩ ++ matchesFor k ⟨l', n⟩ := by
  simp [matchesFor, List.filter_append]

theorem evolves_append (s : Store) (e : Entity) (n : Nat) :
    Evolves s ⟨s.entities ++ [e], n⟩ := by
  constructor
  · intro k r hr
    refine ⟨r, ?_, entCompat_refl r⟩
    unfold firstMatch at hr ⊢
    have : matchesFor k ⟨s.entities ++ [e], n⟩ =
        matchesFor k s ++ matchesFor k ⟨[e], n⟩ := by
      simp [matchesFor, List.filter_append]
    rw [this]
    cases hm : matchesFor k s with
    | nil => rw [hm] at hr; simp at hr
    | cons a as =>
        rw [hm] at hr
        simp only [List.head?] at hr
        simp [hr]
  · intro x hx
    exact ⟨x, by simp [hx], entCompat_refl x⟩

/-- Filtering commutes with mapping a function that preserves the filter
predicate. -/
theorem filter_map_pres (l : List Entity) (p : Entity → Bool)
    (f : Entity → Entity) (hf : ∀ e, p (f e) = p e) :
    (l.map f).filter p = (l.filter p).map f := by
  induction l with
  | nil => rfl
  | cons a as ih =>
      by_cases hp : p a = true
      · simp [List.filter_cons, hp, hf, ih]
      · simp only [Bool.not_eq_true] at hp
        simp [List.filter_cons, hp, hf, ih]

theorem evolves_patch (s : Store) (tid : Nat) (c : Bool) (n : Nat) :
    Evolves s
      ⟨s.entities.map (fun e =>
          if e.id = tid then ⟨e.id, e.data.setCancelled c⟩ else e), n⟩ := by
  set f : Entity → Entity := fun e =>
    if e.id = tid then ⟨e.id, e.data.setCancelled c⟩ else e with hf
  have hfk : ∀ (k : EKey) (e : Entity), keyMatches k (f e) = keyMatches k e := by
    intro k e
    by_cases h : e.id = tid
    · simp [hf, h, keyMatches, setCancelled_key]
    · simp [hf, h]
  have hcompat : ∀ e, entCompat e (f e) := by
    intro e
    by_cases h : e.id = tid
    · exact ⟨by simp [hf, h], c, by simp [hf, h]⟩
    · simp only [hf, if_neg h]
      exact entCompat_refl e
  constructor
  · intro k r hr
    refine ⟨f r, ?_, hcompat r⟩
    unfold firstMatch matchesFor at hr ⊢
    simp only
    rw [filter_map_pres _ _ _ (hfk k)]
    cases hm : List.filter (keyMatches k) s.entities with
    | nil => rw [hm] at hr; simp at hr
    | cons a as =>
        rw [hm] at hr
        simp only [List.head?] at hr
        cases hr
        simp
  · intro e he
    exact ⟨f e, List.mem_map_of_mem f he, hcompat e⟩

/-! ## Lemmas about the get-or-create pattern -/

theorem gco_cons {d : EntityData} {s : Store} {r : Entity} {rest : List Entity}
    (h : matchesFor d.key s = r :: rest) :
    gco d s = (r, s, [(Event.lookup d.key (r :: rest).length, s)]) := by
  unfold gco
  rw [h]

theorem gco_nil {d : EntityData} {s : Store}
    (h : matchesFor d.key s = []) :
    gco d s = (⟨s.nextId, d⟩, ⟨s.entities ++ [⟨s.nextId, d⟩], s.nextId + 1⟩,
      [(Event.lookup d.key 0, s), (Event.create s.nextId d, s)]) := by
  unfold gco
  rw [h]

theorem gco_firstMatch (d : EntityData) (s : Store) :
    firstMatch d.key (gco d s).2.1 = some (gco d s).1 := by
  cases hm : matchesFor d.key s with
  | nil =>
      rw [gco_nil hm]
      unfold firstMatch
      have : matchesFor d.key ⟨s.entities ++ [⟨s.nextId, d⟩], s.nextId + 1⟩ =
          matchesFor d.key s ++
            List.filter (keyMatches d.key) [⟨s.nextId, d⟩] := by
        simp [matchesFor, List.filter_append]
      rw [this, hm]
      simp [keyMatches]
  | cons r rest =>
      rw [gco_cons hm]
      unfold firstMatch
      rw [hm]
      rfl

theorem gco_evolves (d : EntityData) (s : Store) : Evolves s (gco d s).2.1 := by
  cases hm : matchesFor d.key s with
  | nil => rw [gco_nil hm]; exact evolves_append s _ _
  | cons r rest => rw [gco_cons hm]; exact evolves_refl s

theorem gco_result_mem (d : EntityData) (s : Store) :
    (gco d s).1 ∈ (gco d s).2.1.entities := by
  cases hm : matchesFor d.key s with
  | nil => rw [gco_nil hm]; simp
  | cons r rest =>
      rw [gco_cons hm]
      have : r ∈ matchesFor d.key s := by rw [hm]; exact List.mem_cons_self r rest
      exact (List.mem_filter.mp this).1

theorem gco_result_key (d : EntityData) (s : Store) :
    (gco d s).1.data.key = d.key := by
  cases hm : matchesFor d.key s with
  | nil => rw [gco_nil hm]
  | cons r rest =>
      rw [gco_cons hm]
      have : r ∈ matchesFor d.key s := by rw [hm]; exact List.mem_cons_self r rest
      have := (List.mem_filter.mp this).2
      simpa [keyMatches] using this

theorem gco_trace (d : EntityData) (s : Store) :
    ∀ p ∈ (gco d s).2.2, p.2 = s ∧
      ((∃ c, p.1 = Event.lookup d.key c) ∨ p.1 = Event.create s.nextId d) := by
  intro p hp
  cases hm : matchesFor d.key s with
  | nil =>
      rw [gco_nil hm] at hp
      simp only [List.mem_cons, List.mem_singleton, List.not_mem_nil, or_false] at hp
      rcases hp with h | h <;> subst h
      · exact ⟨rfl, Or.inl ⟨0, rfl⟩⟩
      · exact ⟨rfl, Or.inr rfl⟩
  | cons r rest =>
      rw [gco_cons hm] at hp
      simp only [List.mem_singleton] at hp
      subst hp
      exact ⟨rfl, Or.inl ⟨(r :: rest).length, rfl⟩⟩

theorem hasEnt_mono {s s' : Store} {i : Nat} {p : EntityData → Bool}
    (hev : Evolves s s') (hp : ∀ d b, p (d.setCancelled b) = p d)
    (h : hasEnt s i p) : hasEnt s' i p := by
  obtain ⟨e, he, hid, hpe⟩ := h
  obtain ⟨e', he', hid', b, hb⟩ := hev.2 e he
  exact ⟨e', he', hid'.trans hid, by rw [hb, hp]; exact hpe⟩

theorem hasEnt_isLine_mono {s s' : Store} {i : Nat} (hev : Evolves s s')
    (h : hasEnt s i EntityData.isLine) : hasEnt s' i EntityData.isLine :=
  hasEnt_mono hev isLine_setCancelled h

theorem hasEnt_isOperator_mono {s s' : Store} {i : Nat} (hev : Evolves s s')
    (h : hasEnt s i EntityData.isOperator) : hasEnt s' i EntityData.isOperator :=
  hasEnt_mono hev isOperator_setCancelled h

theorem hasEnt_isStation_mono {s s' : Store} {i : Nat} (hev : Evolves s s')
    (h : hasEnt s i EntityData.isStation) : hasEnt s' i EntityData.isStation :=
  hasEnt_mono hev isStation_setCancelled h

theorem hasEnt_isTrain_mono {s s' : Store} {i : Nat} (hev : Evolves s s')
    (h : hasEnt s i EntityData.isTrain) : hasEnt s' i EntityData.isTrain :=
  hasEnt_mono hev isTrain_setCancelled h

/-! ## Lemmas about `create_or_update_train` -/

theorem effectiveTrainDate_none (defDate now : Nat) :
    effectiveTrainDate defDate none now = defDate := rfl

theorem cou_train_found_eq {line : Entity} {tripId : String}
    {origin destination : Entity} {cancelled : Bool} {dateArg : Option Nat}
    {defDate now : Nat} {s : Store} {r : Entity} {rest : List Entity}
    (h : matchesFor (.train line.id (effectiveTrainDate defDate dateArg now) tripId) s
        = r :: rest)
    (hc : r.data.cancelledOf = cancelled) :
    create_or_update_train line tripId origin destination cancelled dateArg
        defDate now s =
      (r, s,
        [(Event.lookup
            (.train line.id (effectiveTrainDate defDate dateArg now) tripId)
            (r :: rest).length, s)]) := by
  unfold create_or_update_train
  simp only []
  rw [h]
  simp [hc]

theorem cou_train_found_ne {line : Entity} {tripId : String}
    {origin destination : Entity} {cancelled : Bool} {dateArg : Option Nat}
    {defDate now : Nat} {s : Store} {r : Entity} {rest : List Entity}
    (h : matchesFor (.train line.id (effectiveTrainDate defDate dateArg now) tripId) s
        = r :: rest)
    (hc : ¬ r.data.cancelledOf = cancelled) :
    create_or_update_train line tripId origin destination cancelled dateArg
        defDate now s =
      (⟨r.id, r.data.setCancelled cancelled⟩,
        ⟨s.entities.map (fun e =>
            if e.id = r.id then ⟨e.id, e.data.setCancelled cancelled⟩ else e),
          s.nextId⟩,
        [(Event.lookup
            (.train line.id (effectiveTrainDate defDate dateArg now) tripId)
            (r :: rest).length, s),
          (Event.patch r.id cancelled, s)]) := by
  unfold create_or_update_train
  simp only []
  rw [h]
  simp [hc]

theorem cou_train_nil {line : Entity} {tripId : String}
    {origin destination : Entity} {cancelled : Bool} {dateArg : Option Nat}
    {defDate now : Nat} {s : Store}
    (h : matchesFor (.train line.id (effectiveTrainDate defDate dateArg now) tripId) s
        = []) :
    create_or_update_train line tripId origin destination cancelled dateArg
        defDate now s =
      (⟨s.nextId, .train line.id (effectiveTrainDate defDate dateArg now) tripId
          cancelled origin.id destination.id (trainName line)⟩,
        ⟨s.entities ++ [⟨s.nextId,
            .train line.id (effectiveTrainDate defDate dateArg now) tripId
              cancelled origin.id destination.id (trainName line)⟩],
          s.nextId + 1⟩,
        [(Event.lookup
            (.train line.id (effectiveTrainDate defDate dateArg now) tripId) 0, s),
          (Event.create s.nextId
            (.train line.id (effectiveTrainDate defDate dateArg now) tripId
              cancelled origin.id destination.id (trainName line)), s)]) := by
  unfold create_or_update_train
  simp only []
  rw [h]

theorem cou_train_evolves (line : Entity) (tripId : String)
    (origin destination : Entity) (cancelled : Bool) (dateArg : Option Nat)
    (defDate now : Nat) (s : Store) :
    Evolves s (create_or_update_train line tripId origin destination cancelled
      dateArg defDate now s).2.1 := by
  cases hm : matchesFor
      (.train line.id (effectiveTrainDate defDate dateArg now) tripId) s with
  | nil => rw [cou_train_nil hm]; exact evolves_append s _ _
  | cons r rest =>
      by_cases hc : r.data.cancelledOf = cancelled
      · rw [cou_train_found_eq hm hc]; exact evolves_refl s
      · rw [cou_train_found_ne hm hc]; exact evolves_patch s r.id cancelled s.nextId

theorem cou_train_key_of_found {line : Entity} {tripId : String}
    {dateArg : Option Nat} {defDate now : Nat} {s : Store} {r : Entity}
    {rest : List Entity}
    (h : matchesFor (.train line.id (effectiveTrainDate defDate dateArg now) tripId) s
        = r :: rest) :
    r.data.key = .train line.id (effectiveTrainDate defDate dateArg now) tripId := by
  have : r ∈ matchesFor
      (.train line.id (effectiveTrainDate defDate dateArg now) tripId) s := by
    rw [h]; exact List.mem_cons_self r rest
  have := (List.mem_filter.mp this).2
  simpa [keyMatches] using this

theorem cou_train_firstMatch (line : Entity) (tripId : String)
    (origin destination : Entity) (cancelled : Bool) (dateArg : Option Nat)
    (defDate now : Nat) (s : Store) :
    firstMatch (.train line.id (effectiveTrainDate defDate dateArg now) tripId)
        (create_or_update_train line tripId origin destination cancelled
          dateArg defDate now s).2.1 =
      some (create_or_update_train line tripId origin destination cancelled
        dateArg defDate now s).1 := by
  cases hm : matchesFor
      (.train line.id (effectiveTrainDate defDate dateArg now) tripId) s with
  | nil =>
      rw [cou_train_nil hm]
      unfold firstMatch
      have : matchesFor
          (.train line.id (effectiveTrainDate defDate dateArg now) tripId)
          (⟨s.entities ++ [⟨s.nextId,
              .train line.id (effectiveTrainDate defDate dateArg now) tripId
                cancelled origin.id destination.id (trainName line)⟩],
            s.nextId + 1⟩ : Store) =
          matchesFor (.train line.id (effectiveTrainDate defDate dateArg now) tripId) s
            ++ List.filter
              (keyMatches (.train line.id (effectiveTrainDate defDate dateArg now) tripId))
              [⟨s.nextId,
                .train line.id (effectiveTrainDate defDate dateArg now) tripId
                  cancelled origin.id destination.id (trainName line)⟩] := by
        simp [matchesFor, List.filter_append]
      rw [this, hm]
      simp [keyMatches, EntityData.key]
  | cons r rest =>
      by_cases hc : r.data.cancelledOf = cancelled
      · rw [cou_train_found_eq hm hc]
        unfold firstMatch
        rw [hm]
        rfl
      · rw [cou_train_found_ne hm hc]
        unfold firstMatch matchesFor
        simp only
        rw [filter_map_pres _ _ _ (fun e => by
          by_cases h : e.id = r.id
          · simp [h, keyMatches, setCancelled_key]
          · simp [h])]
        have : List.filter (keyMatches
            (.train line.id (effectiveTrainDate defDate dateArg now) tripId))
            s.entities = r :: rest := hm
        rw [this]
        simp

theorem cou_train_result_cancelled (line : Entity) (tripId : String)
    (origin destination : Entity) (cancelled : Bool) (dateArg : Option Nat)
    (defDate now : Nat) (s : Store) :
    (create_or_update_train line tripId origin destination cancelled dateArg
      defDate now s).1.data.cancelledOf = cancelled := by
  cases hm : matchesFor
      (.train line.id (effectiveTrainDate defDate dateArg now) tripId) s with
  | nil => rw [cou_train_nil hm]; rfl
  | cons r rest =>
      by_cases hc : r.data.cancelledOf = cancelled
      · rw [cou_train_found_eq hm hc]; exact hc
      · rw [cou_train_found_ne hm hc]
        exact cancelledOf_setCancelled_of_isTrain
          (isTrain_of_key (cou_train_key_of_found hm)) cancelled

theorem cou_train_result_hasEnt (line : Entity) (tripId : String)
    (origin destination : Entity) (cancelled : Bool) (dateArg : Option Nat)
    (defDate now : Nat) (s : Store) :
    hasEnt (create_or_update_train line tripId origin destination cancelled
        dateArg defDate now s).2.1
      (create_or_update_train line tripId origin destination cancelled dateArg
        defDate now s).1.id
      EntityData.isTrain := by
  cases hm : matchesFor
      (.train line.id (effectiveTrainDate defDate dateArg now) tripId) s with
  | nil =>
      rw [cou_train_nil hm]
      exact ⟨_, by simp, rfl, rfl⟩
  | cons r rest =>
      have hk := cou_train_key_of_found hm
      have hmem : r ∈ s.entities := by
        have : r ∈ matchesFor
            (.train line.id (effectiveTrainDate defDate dateArg now) tripId) s := by
          rw [hm]; exact List.mem_cons_self r rest
        exact (List.mem_filter.mp this).1
      by_cases hc : r.data.cancelledOf = cancelled
      · rw [cou_train_found_eq hm hc]
        exact ⟨r, hmem, rfl, isTrain_of_key hk⟩
      · rw [cou_train_found_ne hm hc]
        refine ⟨⟨r.id, r.data.setCancelled cancelled⟩, ?_, rfl, ?_⟩
        · have := List.mem_map_of_mem (fun e =>
              if e.id = r.id then
                (⟨e.id, e.data.setCancelled cancelled⟩ : Entity) else e) hmem
          simpa using this
        · rw [isTrain_setCancelled]
          exact isTrain_of_key hk

theorem cou_train_trace_parentsOk {line : Entity} {tripId : String}
    {origin destination : Entity} {cancelled : Bool} {dateArg : Option Nat}
    {defDate now : Nat} {s : Store}
    (hl : hasEnt s line.id EntityData.isLine)
    (ho : hasEnt s origin.id EntityData.isStation)
    (hd : hasEnt s destination.id EntityData.isStation) :
    ∀ p ∈ (create_or_update_train line tripId origin destination cancelled
        dateArg defDate now s).2.2,
      parentsOk p.1 p.2 := by
  intro p hp
  cases hm : matchesFor
      (.train line.id (effectiveTrainDate defDate dateArg now) tripId) s with
  | nil =>
      rw [cou_train_nil hm] at hp
      simp only [List.mem_cons, List.mem_singleton, List.not_mem_nil, or_false] at hp
      rcases hp with h | h <;> subst h
      · trivial
      · exact ⟨hl, ho, hd⟩
  | cons r rest =>
      by_cases hc : r.data.cancelledOf = cancelled
      · rw [cou_train_found_eq hm hc] at hp
        simp only [List.mem_singleton] at hp
        subst hp
        trivial
      · rw [cou_train_found_ne hm hc] at hp
        simp only [List.mem_cons, List.mem_singleton, List.not_mem_nil, or_false] at hp
        rcases hp with h | h <;> subst h <;> trivial

/-- Every event emitted by `gco d s` satisfies `parentsOk`, provided the
would-be create of `d` against `s` does. -/
theorem gco_trace_parentsOk (d : EntityData) (s : Store)
    (h : parentsOk (Event.create s.nextId d) s) :
    ∀ p ∈ (gco d s).2.2, parentsOk p.1 p.2 := by
  intro p hp
  obtain ⟨hst, hev | hev⟩ := gco_trace d s p hp
  · obtain ⟨c, hc⟩ := hev
    rw [hc, hst]
    trivial
  · rw [hev, hst]
    exact h

/-! ## Lemmas about the per-trip phases: evolution and referential integrity -/

theorem cous_evolves (idx : Nat) (so : StopoverData) (train : Entity) (s : Store) :
    Evolves s (create_or_update_stopover idx so train s).2.1 := by
  unfold create_or_update_stopover
  exact evolves_trans (gco_evolves _ _) (gco_evolves _ _)

theorem cous_trace_parentsOk {idx : Nat} {so : StopoverData} {train : Entity}
    {s : Store} (h : hasEnt s train.id EntityData.isTrain) :
    ∀ p ∈ (create_or_update_stopover idx so train s).2.2, parentsOk p.1 p.2 := by
  intro p hp
  have hp' : p ∈ (gco (stationDataOf so.stop) s).2.2 ++
      (gco (stopoverDataOf train idx (gco (stationDataOf so.stop) s).1 so)
        (gco (stationDataOf so.stop) s).2.1).2.2 := hp
  rcases List.mem_append.mp hp' with h1 | h2
  · exact gco_trace_parentsOk (stationDataOf so.stop) s trivial p h1
  · exact gco_trace_parentsOk
      (stopoverDataOf train idx (gco (stationDataOf so.stop) s).1 so)
      (gco (stationDataOf so.stop) s).2.1
      (hasEnt_isTrain_mono (gco_evolves (stationDataOf so.stop) s) h) p h2

theorem stopoversFold_cons_skip {train : Entity} {i : Nat} {so : StopoverData}
    {rest : List StopoverData} {s : Store} (hc : so.cancelledKey.isSome = true) :
    stopoversFold train i (so :: rest) s = stopoversFold train (i + 1) rest s := by
  conv_lhs => unfold stopoversFold
  rw [if_pos hc]

theorem stopoversFold_cons_go {train : Entity} {i : Nat} {so : StopoverData}
    {rest : List StopoverData} {s : Store}
    (hc : so.cancelledKey.isSome = false) :
    stopoversFold train i (so :: rest) s =
      ((stopoversFold train (i + 1) rest
          (create_or_update_stopover i so train s).2.1).1,
        (create_or_update_stopover i so train s).2.2 ++
          (stopoversFold train (i + 1) rest
            (create_or_update_stopover i so train s).2.1).2) := by
  conv_lhs => unfold stopoversFold
  rw [if_neg (by simp [hc])]

theorem stopoversFold_evolves (train : Entity) (i : Nat)
    (l : List StopoverData) (s : Store) :
    Evolves s (stopoversFold train i l s).1 := by
  induction l generalizing i s with
  | nil => exact evolves_refl s
  | cons so rest ih =>
      cases hc : so.cancelledKey.isSome with
      | true => rw [stopoversFold_cons_skip hc]; exact ih _ _
      | false =>
          rw [stopoversFold_cons_go hc]
          exact evolves_trans (cous_evolves i so train s) (ih _ _)

theorem stopoversFold_trace_parentsOk {train : Entity} {i : Nat}
    {l : List StopoverData} {s : Store}
    (h : hasEnt s train.id EntityData.isTrain) :
    ∀ p ∈ (stopoversFold train i l s).2, parentsOk p.1 p.2 := by
  induction l generalizing i s with
  | nil => intro p hp; simp [stopoversFold] at hp
  | cons so rest ih =>
      intro p hp
      cases hc : so.cancelledKey.isSome with
      | true =>
          rw [stopoversFold_cons_skip hc] at hp
          exact ih h p hp
      | false =>
          rw [stopoversFold_cons_go hc] at hp
          rcases List.mem_append.mp hp with h1 | h2
          · exact cous_trace_parentsOk h p h1
          · exact ih (hasEnt_isTrain_mono (cous_evolves i so train s) h) p h2

theorem remarksFold_cons (train : Entity) (r : RemarkData)
    (rest : List RemarkData) (s : Store) :
    remarksFold train (r :: rest) s =
      ((remarksFold train rest (gco (.remark train.id r.text) s).2.1).1,
        (gco (.remark train.id r.text) s).2.2 ++
          (remarksFold train rest (gco (.remark train.id r.text) s).2.1).2) := rfl

theorem remarksFold_evolves (train : Entity) (l : List RemarkData) (s : Store) :
    Evolves s (remarksFold train l s).1 := by
  induction l generalizing s with
  | nil => exact evolves_refl s
  | cons r rest ih =>
      rw [remarksFold_cons]
      exact evolves_trans (gco_evolves _ _) (ih _)

theorem remarksFold_trace_parentsOk {train : Entity} {l : List RemarkData}
    {s : Store} (h : hasEnt s train.id EntityData.isTrain) :
    ∀ p ∈ (remarksFold train l s).2, parentsOk p.1 p.2 := by
  induction l generalizing s with
  | nil => intro p hp; simp [remarksFold] at hp
  | cons r rest ih =>
      intro p hp
      rw [remarksFold_cons] at hp
      rcases List.mem_append.mp hp with h1 | h2
      · exact gco_trace_parentsOk (.remark train.id r.text) s h p h1
      · exact ih (hasEnt_isTrain_mono (gco_evolves _ _) h) p h2

theorem compPhase_cancelled {line train : Entity} {td : TripDetails}
    {comp : Option String} {s : Store} (h : train.data.cancelledOf = true) :
    compositionPhase line train td comp s = (s, [], none) := by
  unfold compositionPhase
  rw [if_pos h]

theorem compPhase_empty {line train : Entity} {td : TripDetails}
    {comp : Option String} {s : Store} (h : train.data.cancelledOf = false)
    (he : td.stopovers.head? = none) :
    compositionPhase line train td comp s = (s, [], some .indexEmptyStopovers) := by
  unfold compositionPhase
  rw [if_neg (by simp [h]), he]

theorem compPhase_noData {line train : Entity} {td : TripDetails} {s : Store}
    {so0 : StopoverData} (h : train.data.cancelledOf = false)
    (hh : td.stopovers.head? = some so0) :
    compositionPhase line train td none s =
      (s, [(Event.compFetch (lineNumberOf line) td.origin.id
        so0.plannedDeparture, s)], none) := by
  unfold compositionPhase
  rw [if_neg (by simp [h]), hh]

theorem compPhase_data {line train : Entity} {td : TripDetails} {s : Store}
    {so0 : StopoverData} {g : String} (h : train.data.cancelledOf = false)
    (hh : td.stopovers.head? = some so0) :
    compositionPhase line train td (some g) s =
      ((gco (.comp train.id g) s).2.1,
        (Event.compFetch (lineNumberOf line) td.origin.id
          so0.plannedDeparture, s) :: (gco (.comp train.id g) s).2.2,
        none) := by
  unfold compositionPhase
  rw [if_neg (by simp [h]), hh]

theorem compPhase_evolves (line train : Entity) (td : TripDetails)
    (comp : Option String) (s : Store) :
    Evolves s (compositionPhase line train td comp s).1 := by
  cases h : train.data.cancelledOf with
  | true => rw [compPhase_cancelled h]; exact evolves_refl s
  | false =>
      cases hh : td.stopovers.head? with
      | none => rw [compPhase_empty h hh]; exact evolves_refl s
      | some so0 =>
          cases comp with
          | none => rw [compPhase_noData h hh]; exact evolves_refl s
          | some g => rw [compPhase_data h hh]; exact gco_evolves _ _

theorem compPhase_trace_parentsOk {line train : Entity} {td : TripDetails}
    {comp : Option String} {s : Store}
    (h : hasEnt s train.id EntityData.isTrain) :
    ∀ p ∈ (compositionPhase line train td comp s).2.1, parentsOk p.1 p.2 := by
  intro p hp
  cases hc : train.data.cancelledOf with
  | true => rw [compPhase_cancelled hc] at hp; simp at hp
  | false =>
      cases hh : td.stopovers.head? with
      | none => rw [compPhase_empty hc hh] at hp; simp at hp
      | some so0 =>
          cases comp with
          | none =>
              rw [compPhase_noData hc hh] at hp
              simp only [List.mem_singleton] at hp
              subst hp
              trivial
          | some g =>
              rw [compPhase_data hc hh] at hp
              rcases List.mem_cons.mp hp with h1 | h2
              · subst h1; trivial
              · exact gco_trace_parentsOk (.comp train.id g) s h p h2

theorem opLinePhase_def (item : BoardItem) (s : Store) :
    opLinePhase item s =
      ((gco (.line (gco (.operator item.operatorName) s).1.id
          item.productName item.fahrtNr item.lineName)
          (gco (.operator item.operatorName) s).2.1).1,
        (gco (.line (gco (.operator item.operatorName) s).1.id
          item.productName item.fahrtNr item.lineName)
          (gco (.operator item.operatorName) s).2.1).2.1,
        (gco (.operator item.operatorName) s).2.2 ++
          (gco (.line (gco (.operator item.operatorName) s).1.id
            item.productName item.fahrtNr item.lineName)
            (gco (.operator item.operatorName) s).2.1).2.2) := rfl

theorem opLinePhase_evolves (item : BoardItem) (s : Store) :
    Evolves s (opLinePhase item s).2.1 := by
  rw [opLinePhase_def]
  exact evolves_trans (gco_evolves _ _) (gco_evolves _ _)

theorem opLinePhase_line_isLine (item : BoardItem) (s : Store) :
    (opLinePhase item s).1.data.isLine = true := by
  rw [opLinePhase_def]
  exact isLine_of_key (gco_result_key _ _)

theorem opLinePhase_line_hasEnt (item : BoardItem) (s : Store) :
    hasEnt (opLinePhase item s).2.1 (opLinePhase item s).1.id
      EntityData.isLine := by
  rw [opLinePhase_def]
  exact ⟨_, gco_result_mem _ _, rfl, isLine_of_key (gco_result_key _ _)⟩

theorem opLinePhase_trace_parentsOk (item : BoardItem) (s : Store) :
    ∀ p ∈ (opLinePhase item s).2.2, parentsOk p.1 p.2 := by
  intro p hp
  rw [opLinePhase_def] at hp
  rcases List.mem_append.mp hp with h1 | h2
  · exact gco_trace_parentsOk (.operator item.operatorName) s trivial p h1
  · refine gco_trace_parentsOk
      (.line (gco (.operator item.operatorName) s).1.id
        item.productName item.fahrtNr item.lineName)
      (gco (.operator item.operatorName) s).2.1 ?_ p h2
    exact ⟨_, gco_result_mem _ _, rfl, isOperator_of_key (gco_result_key _ _)⟩

theorem detailPhase_evolves (defDate now : Nat) (item : BoardItem)
    (line : Entity) (td : TripDetails) (comp : Option String) (s : Store) :
    Evolves s (detailPhase defDate now item line td comp s).1 := by
  have e1 : Evolves s (dpOrigin td s).2.1 := gco_evolves _ _
  have e2 : Evolves (dpOrigin td s).2.1 (dpDest td s).2.1 := gco_evolves _ _
  have e3 : Evolves (dpDest td s).2.1 (dpTrain defDate now item line td s).2.1 :=
    cou_train_evolves line item.tripId _ _ false none defDate now _
  have e4 : Evolves (dpTrain defDate now item line td s).2.1
      (dpStops defDate now item line td s).1 :=
    stopoversFold_evolves _ 0 td.stopovers _
  have e5 : Evolves (dpStops defDate now item line td s).1
      (dpRemarks defDate now item line td s).1 :=
    remarksFold_evolves _ td.remarks _
  have e6 : Evolves (dpRemarks defDate now item line td s).1
      (dpComp defDate now item line td comp s).1 :=
    compPhase_evolves line _ td comp _
  exact evolves_trans e1 (evolves_trans e2 (evolves_trans e3
    (evolves_trans e4 (evolves_trans e5 e6))))

theorem detailPhase_trace_parentsOk {defDate now : Nat} {item : BoardItem}
    {line : Entity} {td : TripDetails} {comp : Option String} {s : Store}
    (hl : hasEnt s line.id EntityData.isLine) :
    ∀ p ∈ (detailPhase defDate now item line td comp s).2.1,
      parentsOk p.1 p.2 := by
  intro p hp
  have hev1 : Evolves s (dpOrigin td s).2.1 := gco_evolves _ _
  have hev2 : Evolves (dpOrigin td s).2.1 (dpDest td s).2.1 := gco_evolves _ _
  have hev4 : Evolves (dpTrain defDate now item line td s).2.1
      (dpStops defDate now item line td s).1 :=
    stopoversFold_evolves _ 0 td.stopovers _
  have hev5 : Evolves (dpStops defDate now item line td s).1
      (dpRemarks defDate now item line td s).1 :=
    remarksFold_evolves _ td.remarks _
  have hOrigin : hasEnt (dpOrigin td s).2.1 (dpOrigin td s).1.id
      EntityData.isStation :=
    ⟨_, gco_result_mem _ _, rfl, isStation_of_key (gco_result_key _ _)⟩
  have hDest : hasEnt (dpDest td s).2.1 (dpDest td s).1.id
      EntityData.isStation :=
    ⟨_, gco_result_mem _ _, rfl, isStation_of_key (gco_result_key _ _)⟩
  have hTrain : hasEnt (dpTrain defDate now item line td s).2.1
      (dpTrain defDate now item line td s).1.id EntityData.isTrain :=
    cou_train_result_hasEnt line item.tripId _ _ false none defDate now _
  have hp' : p ∈ (dpOrigin td s).2.2 ++ (dpDest td s).2.2 ++
      (dpTrain defDate now item line td s).2.2 ++
      (dpStops defDate now item line td s).2 ++
      (dpRemarks defDate now item line td s).2 ++
      (dpComp defDate now item line td comp s).2.1 := hp
  simp only [List.append_assoc, List.mem_append] at hp'
  rcases hp' with h1 | h2 | h3 | h4 | h5 | h6
  · exact gco_trace_parentsOk (stationDataOf td.origin) s trivial p h1
  · exact gco_trace_parentsOk (stationDataOf td.destination)
      (dpOrigin td s).2.1 trivial p h2
  · exact cou_train_trace_parentsOk
      (hasEnt_isLine_mono (evolves_trans hev1 hev2) hl)
      (hasEnt_isStation_mono hev2 hOrigin) hDest p h3
  · exact stopoversFold_trace_parentsOk hTrain p h4
  · exact remarksFold_trace_parentsOk (hasEnt_isTrain_mono hev4 hTrain) p h5
  · exact compPhase_trace_parentsOk
      (hasEnt_isTrain_mono (evolves_trans hev4 hev5) hTrain) p h6

/-! ## Lemmas about `reconcileTrip` -/

theorem reconcileTrip_transport {defDate now : Nat} {t : TripInput} {s : Store}
    {e : TErr} (h : t.detail = .transportError e) :
    reconcileTrip defDate now t s =
      (s, [(Event.tripFetch t.item.tripId, s)], some (.fetch e)) := by
  unfold reconcileTrip
  rw [h]
  rfl

theorem reconcileTrip_noDetail {defDate now : Nat} {t : TripInput} {s : Store}
    {st : Nat} (h : t.detail = .httpError st) :
    reconcileTrip defDate now t s =
      ((opLinePhase t.item s).2.1,
        (Event.tripFetch t.item.tripId, s) :: (opLinePhase t.item s).2.2,
        some .typeErrorNoDetail) := by
  unfold reconcileTrip
  rw [h]
  rfl

theorem reconcileTrip_ok {defDate now : Nat} {t : TripInput} {s : Store}
    {td : TripDetails} (h : t.detail = .ok td) :
    reconcileTrip defDate now t s =
      ((detailPhase defDate now t.item (opLinePhase t.item s).1 td t.comp
          (opLinePhase t.item s).2.1).1,
        (Event.tripFetch t.item.tripId, s) ::
          ((opLinePhase t.item s).2.2 ++
            (detailPhase defDate now t.item (opLinePhase t.item s).1 td t.comp
              (opLinePhase t.item s).2.1).2.1),
        (detailPhase defDate now t.item (opLinePhase t.item s).1 td t.comp
          (opLinePhase t.item s).2.1).2.2) := by
  unfold reconcileTrip
  rw [h]
  rfl

theorem reconcileTrip_ok_store {defDate now : Nat} {t : TripInput} {s : Store}
    {td : TripDetails} (h : t.detail = .ok td) :
    (reconcileTrip defDate now t s).1 =
      (detailPhase defDate now t.item (opLinePhase t.item s).1 td t.comp
        (opLinePhase t.item s).2.1).1 := by
  rw [reconcileTrip_ok h]

theorem reconcileTrip_ok_err {defDate now : Nat} {t : TripInput} {s : Store}
    {td : TripDetails} (h : t.detail = .ok td) :
    (reconcileTrip defDate now t s).2.2 =
      (detailPhase defDate now t.item (opLinePhase t.item s).1 td t.comp
        (opLinePhase t.item s).2.1).2.2 := by
  rw [reconcileTrip_ok h]

theorem reconcileTrip_ok_trace {defDate now : Nat} {t : TripInput} {s : Store}
    {td : TripDetails} (h : t.detail = .ok td) :
    (reconcileTrip defDate now t s).2.1 =
      (Event.tripFetch t.item.tripId, s) ::
        ((opLinePhase t.item s).2.2 ++
          (detailPhase defDate now t.item (opLinePhase t.item s).1 td t.comp
            (opLinePhase t.item s).2.1).2.1) := by
  rw [reconcileTrip_ok h]

theorem reconcileTrip_evolves (defDate now : Nat) (t : TripInput) (s : Store) :
    Evolves s (reconcileTrip defDate now t s).1 := by
  cases h : t.detail with
  | transportError e => rw [reconcileTrip_transport h]; exact evolves_refl s
  | httpError st => rw [reconcileTrip_noDetail h]; exact opLinePhase_evolves t.item s
  | ok td =>
      rw [reconcileTrip_ok h]
      exact evolves_trans (opLinePhase_evolves t.item s)
        (detailPhase_evolves defDate now t.item _ td t.comp _)

theorem reconcileTrip_trace_parentsOk (defDate now : Nat) (t : TripInput)
    (s : Store) :
    ∀ p ∈ (reconcileTrip defDate now t s).2.1, parentsOk p.1 p.2 := by
  intro p hp
  cases h : t.detail with
  | transportError e =>
      rw [reconcileTrip_transport h] at hp
      simp only [List.mem_singleton] at hp
      subst hp
      trivial
  | httpError st =>
      rw [reconcileTrip_noDetail h] at hp
      rcases List.mem_cons.mp hp with h1 | h2
      · subst h1; trivial
      · exact opLinePhase_trace_parentsOk t.item s p h2
  | ok td =>
      rw [reconcileTrip_ok h] at hp
      rcases List.mem_cons.mp hp with h1 | h2
      · subst h1; trivial
      · rcases List.mem_append.mp h2 with h3 | h4
        · exact opLinePhase_trace_parentsOk t.item s p h3
        · exact detailPhase_trace_parentsOk (opLinePhase_line_hasEnt t.item s) p h4

/-! ## Lemmas about the trip loop and the cycle -/

theorem runTrips_cons (defDate now : Nat) (t : TripInput)
    (rest : List TripInput) (s : Store) :
    runTrips defDate now (t :: rest) s =
      (match (reconcileTrip defDate now t s).2.2 with
        | some e =>
            ((reconcileTrip defDate now t s).1,
              (reconcileTrip defDate now t s).2.1, some e)
        | none =>
            ((runTrips defDate now rest (reconcileTrip defDate now t s).1).1,
              (reconcileTrip defDate now t s).2.1 ++
                (runTrips defDate now rest (reconcileTrip defDate now t s).1).2.1,
              (runTrips defDate now rest (reconcileTrip defDate now t s).1).2.2)) := rfl

theorem runTrips_cons_err {defDate now : Nat} {t : TripInput}
    {rest : List TripInput} {s : Store} {e : PErr}
    (h : (reconcileTrip defDate now t s).2.2 = some e) :
    runTrips defDate now (t :: rest) s =
      ((reconcileTrip defDate now t s).1,
        (reconcileTrip defDate now t s).2.1, some e) := by
  rw [runTrips_cons, h]

theorem runTrips_cons_ok {defDate now : Nat} {t : TripInput}
    {rest : List TripInput} {s : Store}
    (h : (reconcileTrip defDate now t s).2.2 = none) :
    runTrips defDate now (t :: rest) s =
      ((runTrips defDate now rest (reconcileTrip defDate now t s).1).1,
        (reconcileTrip defDate now t s).2.1 ++
          (runTrips defDate now rest (reconcileTrip defDate now t s).1).2.1,
        (runTrips defDate now rest (reconcileTrip defDate now t s).1).2.2) := by
  rw [runTrips_cons, h]

theorem runTrips_evolves (defDate now : Nat) (l : List TripInput) (s : Store) :
    Evolves s (runTrips defDate now l s).1 := by
  induction l generalizing s with
  | nil => exact evolves_refl s
  | cons t rest ih =>
      cases h : (reconcileTrip defDate now t s).2.2 with
      | some e =>
          rw [runTrips_cons_err h]
          exact reconcileTrip_evolves defDate now t s
      | none =>
          rw [runTrips_cons_ok h]
          exact evolves_trans (reconcileTrip_evolves defDate now t s) (ih _)

theorem runTrips_trace_parentsOk (defDate now : Nat) (l : List TripInput)
    (s : Store) :
    ∀ p ∈ (runTrips defDate now l s).2.1, parentsOk p.1 p.2 := by
  induction l generalizing s with
  | nil => intro p hp; simp [runTrips] at hp
  | cons t rest ih =>
      intro p hp
      cases h : (reconcileTrip defDate now t s).2.2 with
      | some e =>
          rw [runTrips_cons_err h] at hp
          exact reconcileTrip_trace_parentsOk defDate now t s p hp
      | none =>
          rw [runTrips_cons_ok h] at hp
          rcases List.mem_append.mp hp with h1 | h2
          · exact reconcileTrip_trace_parentsOk defDate now t s p h1
          · exact ih _ p h2

/-! ## Replay lemmas: a second identical run only finds -/

theorem foundOnly_nil : FoundOnly [] := by
  intro p hp
  simp at hp

theorem foundOnly_append {a b : Trace} (ha : FoundOnly a) (hb : FoundOnly b) :
    FoundOnly (a ++ b) := by
  intro p hp
  rcases List.mem_append.mp hp with h | h
  · exact ha p h
  · exact hb p h

theorem entCompat_data_eq {e e' : Entity} (h : entCompat e e')
    (ht : e.data.isTrain = false) : e'.data = e.data := by
  obtain ⟨_, b, hb⟩ := h
  rw [hb, setCancelled_of_isTrain_false ht]

theorem firstMatch_cons {k : EKey} {t : Store} {r : Entity}
    (h : firstMatch k t = some r) : ∃ rest, matchesFor k t = r :: rest := by
  unfold firstMatch at h
  cases hm : matchesFor k t with
  | nil => rw [hm] at h; simp at h
  | cons a as =>
      rw [hm] at h
      simp only [List.head?, Option.some.injEq] at h
      subst h
      exact ⟨as, rfl⟩

theorem gco_replay (d : EntityData) (s t : Store)
    (hev : Evolves (gco d s).2.1 t) :
    (gco d t).2.1 = t ∧ FoundOnly (gco d t).2.2 ∧
      (gco d t).1.id = (gco d s).1.id ∧
      ∃ b, (gco d t).1.data = (gco d s).1.data.setCancelled b := by
  obtain ⟨r', hfm, hc⟩ := hev.1 d.key (gco d s).1 (gco_firstMatch d s)
  obtain ⟨rest, hm⟩ := firstMatch_cons hfm
  rw [gco_cons hm]
  refine ⟨rfl, ?_, hc.1, hc.2⟩
  intro p hp
  simp only [List.mem_singleton] at hp
  subst hp
  simp [eventOk]

theorem cou_train_replay (line line₂ origin destination origin₂ destination₂ : Entity)
    (tripId : String) (c : Bool) (defDate now now₂ : Nat) (s t : Store)
    (hid : line₂.id = line.id)
    (hev : Evolves (create_or_update_train line tripId origin destination c
        none defDate now s).2.1 t) :
    (create_or_update_train line₂ tripId origin₂ destination₂ c
        none defDate now₂ t).1.id =
      (create_or_update_train line tripId origin destination c
        none defDate now s).1.id ∧
    FoundOnly (create_or_update_train line₂ tripId origin₂ destination₂ c
      none defDate now₂ t).2.2 := by
  have hkey : (EKey.train line₂.id (effectiveTrainDate defDate none now₂) tripId)
      = .train line.id (effectiveTrainDate defDate none now) tripId := by
    rw [hid, effectiveTrainDate_none, effectiveTrainDate_none]
  obtain ⟨r', hfm, hcmp⟩ := hev.1 _
    (create_or_update_train line tripId origin destination c none defDate now s).1
    (cou_train_firstMatch line tripId origin destination c none defDate now s)
  have hfm₂ : firstMatch
      (.train line₂.id (effectiveTrainDate defDate none now₂) tripId) t = some r' := by
    rw [hkey]; exact hfm
  obtain ⟨rest, hm⟩ := firstMatch_cons hfm₂
  by_cases hcc : r'.data.cancelledOf = c
  · rw [cou_train_found_eq hm hcc]
    refine ⟨hcmp.1, ?_⟩
    intro p hp
    simp only [List.mem_singleton] at hp
    subst hp
    simp [eventOk]
  · rw [cou_train_found_ne hm hcc]
    refine ⟨hcmp.1, ?_⟩
    intro p hp
    simp only [List.mem_cons, List.mem_singleton, List.not_mem_nil, or_false] at hp
    rcases hp with h | h <;> subst h <;> simp [eventOk]

theorem cous_def (idx : Nat) (so : StopoverData) (train : Entity) (s : Store) :
    create_or_update_stopover idx so train s =
      ((gco (stopoverDataOf train idx (gco (stationDataOf so.stop) s).1 so)
          (gco (stationDataOf so.stop) s).2.1).1,
        (gco (stopoverDataOf train idx (gco (stationDataOf so.stop) s).1 so)
          (gco (stationDataOf so.stop) s).2.1).2.1,
        (gco (stationDataOf so.stop) s).2.2 ++
          (gco (stopoverDataOf train idx (gco (stationDataOf so.stop) s).1 so)
            (gco (stationDataOf so.stop) s).2.1).2.2) := rfl

theorem cous_replay (idx : Nat) (so : StopoverData) (train train₂ : Entity)
    (s t : Store) (hid : train₂.id = train.id)
    (hev : Evolves (create_or_update_stopover idx so train s).2.1 t) :
    (create_or_update_stopover idx so train₂ t).2.1 = t ∧
      FoundOnly (create_or_update_stopover idx so train₂ t).2.2 := by
  have hev' : Evolves (gco (stopoverDataOf train idx
      (gco (stationDataOf so.stop) s).1 so)
      (gco (stationDataOf so.stop) s).2.1).2.1 t := by
    rw [cous_def] at hev
    exact hev
  have hevS : Evolves (gco (stationDataOf so.stop) s).2.1 t :=
    evolves_trans (gco_evolves _ _) hev'
  obtain ⟨hstS, hstF, hstId, hstB⟩ := gco_replay (stationDataOf so.stop) s t hevS
  have hstData : (gco (stationDataOf so.stop) t).1.data
      = (gco (stationDataOf so.stop) s).1.data := by
    obtain ⟨b, hb⟩ := hstB
    rw [hb, setCancelled_of_isTrain_false]
    exact isStation_isTrain_false (isStation_of_key (gco_result_key _ _))
  have hd : stopoverDataOf train₂ idx (gco (stationDataOf so.stop) t).1 so =
      stopoverDataOf train idx (gco (stationDataOf so.stop) s).1 so := by
    unfold stopoverDataOf
    rw [hid, hstId]
  obtain ⟨hspS, hspF, _, _⟩ := gco_replay
    (stopoverDataOf train idx (gco (stationDataOf so.stop) s).1 so)
    (gco (stationDataOf so.stop) s).2.1 t hev'
  rw [cous_def, hd, hstS]
  exact ⟨hspS, foundOnly_append hstF hspF⟩

theorem stopoversFold_replay (train train₂ : Entity) (i : Nat)
    (l : List StopoverData) (s t : Store) (hid : train₂.id = train.id)
    (hev : Evolves (stopoversFold train i l s).1 t) :
    (stopoversFold train₂ i l t).1 = t ∧
      FoundOnly (stopoversFold train₂ i l t).2 := by
  induction l generalizing i s t with
  | nil => exact ⟨rfl, foundOnly_nil⟩
  | cons so rest ih =>
      cases hc : so.cancelledKey.isSome with
      | true =>
          rw [stopoversFold_cons_skip hc] at hev ⊢
          exact ih _ _ _ hev
      | false =>
          rw [stopoversFold_cons_go hc] at hev
          have hevC : Evolves (create_or_update_stopover i so train s).2.1 t :=
            evolves_trans (stopoversFold_evolves train (i + 1) rest _) hev
          obtain ⟨hcS, hcF⟩ := cous_replay i so train train₂ s t hid hevC
          obtain ⟨hfS, hfF⟩ := ih (i + 1) _ t hev
          rw [stopoversFold_cons_go hc, hcS]
          exact ⟨hfS, foundOnly_append hcF hfF⟩

theorem remarksFold_replay (train train₂ : Entity) (l : List RemarkData)
    (s t : Store) (hid : train₂.id = train.id)
    (hev : Evolves (remarksFold train l s).1 t) :
    (remarksFold train₂ l t).1 = t ∧ FoundOnly (remarksFold train₂ l t).2 := by
  induction l generalizing s t with
  | nil => exact ⟨rfl, foundOnly_nil⟩
  | cons r rest ih =>
      rw [remarksFold_cons] at hev
      have hevG : Evolves (gco (.remark train.id r.text) s).2.1 t :=
        evolves_trans (remarksFold_evolves train rest _) hev
      obtain ⟨hgS, hgF, _, _⟩ := gco_replay (.remark train.id r.text) s t hevG
      have hd : (EKey.remark train₂.id r.text) = .remark train.id r.text := by
        rw [hid]
      obtain ⟨hfS, hfF⟩ := ih _ t hev
      rw [remarksFold_cons]
      have hgS' : (gco (.remark train₂.id r.text) t).2.1 = t := by
        have : (EntityData.remark train₂.id r.text) = .remark train.id r.text := by
          rw [hid]
        rw [this]
        exact hgS
      have hgF' : FoundOnly (gco (.remark train₂.id r.text) t).2.2 := by
        have : (EntityData.remark train₂.id r.text) = .remark train.id r.text := by
          rw [hid]
        rw [this]
        exact hgF
      rw [hgS']
      exact ⟨hfS, foundOnly_append hgF' hfF⟩

theorem compPhase_replay (line line₂ train train₂ : Entity) (td : TripDetails)
    (comp : Option String) (s t : Store) (hid : train₂.id = train.id)
    (hcT : train.data.cancelledOf = false)
    (hcT₂ : train₂.data.cancelledOf = false)
    (hev : Evolves (compositionPhase line train td comp s).1 t) :
    (compositionPhase line₂ train₂ td comp t).1 = t ∧
      FoundOnly (compositionPhase line₂ train₂ td comp t).2.1 ∧
      (compositionPhase line₂ train₂ td comp t).2.2 =
        (compositionPhase line train td comp s).2.2 := by
  cases hh : td.stopovers.head? with
  | none =>
      rw [compPhase_empty hcT hh, compPhase_empty hcT₂ hh]
      exact ⟨rfl, foundOnly_nil, rfl⟩
  | some so0 =>
      cases comp with
      | none =>
          rw [compPhase_noData hcT hh, compPhase_noData hcT₂ hh]
          refine ⟨rfl, ?_, rfl⟩
          intro p hp
          simp only [List.mem_singleton] at hp
          subst hp
          simp [eventOk]
      | some g =>
          rw [compPhase_data hcT hh] at hev
          have hd : (EntityData.comp train₂.id g) = .comp train.id g := by
            rw [hid]
          obtain ⟨hgS, hgF, _, _⟩ := gco_replay (.comp train.id g) s t hev
          rw [compPhase_data hcT₂ hh, compPhase_data hcT hh, hd, hgS]
          refine ⟨rfl, ?_, rfl⟩
          intro p hp
          rcases List.mem_cons.mp hp with h1 | h2
          · subst h1; simp [eventOk]
          · exact hgF p h2

theorem opLinePhase_replay (item : BoardItem) (s t : Store)
    (hev : Evolves (opLinePhase item s).2.1 t) :
    (opLinePhase item t).2.1 = t ∧ FoundOnly (opLinePhase item t).2.2 ∧
      (opLinePhase item t).1.id = (opLinePhase item s).1.id := by
  have hev' : Evolves (gco (.line (gco (.operator item.operatorName) s).1.id
      item.productName item.fahrtNr item.lineName)
      (gco (.operator item.operatorName) s).2.1).2.1 t := by
    rw [opLinePhase_def] at hev
    exact hev
  have hevOp : Evolves (gco (.operator item.operatorName) s).2.1 t :=
    evolves_trans (gco_evolves _ _) hev'
  obtain ⟨hopS, hopF, hopId, _⟩ := gco_replay (.operator item.operatorName) s t hevOp
  have hd : (EntityData.line (gco (.operator item.operatorName) t).1.id
      item.productName item.fahrtNr item.lineName) =
      .line (gco (.operator item.operatorName) s).1.id
        item.productName item.fahrtNr item.lineName := by
    rw [hopId]
  obtain ⟨hlnS, hlnF, hlnId, _⟩ := gco_replay
    (.line (gco (.operator item.operatorName) s).1.id
      item.productName item.fahrtNr item.lineName)
    (gco (.operator item.operatorName) s).2.1 t hev'
  rw [opLinePhase_def, opLinePhase_def, hd, hopS]
  exact ⟨hlnS, foundOnly_append hopF hlnF, hlnId⟩

theorem detailPhase_replay (defDate now now₂ : Nat) (item : BoardItem)
    (line line₂ : Entity) (td : TripDetails) (comp : Option String)
    (s t : Store) (hid : line₂.id = line.id)
    (hev : Evolves (detailPhase defDate now item line td comp s).1 t) :
    FoundOnly (detailPhase defDate now₂ item line₂ td comp t).2.1 ∧
      (detailPhase defDate now₂ item line₂ td comp t).2.2 =
        (detailPhase defDate now item line td comp s).2.2 := by
  have e2 : Evolves (dpOrigin td s).2.1 (dpDest td s).2.1 := gco_evolves _ _
  have e3 : Evolves (dpDest td s).2.1 (dpTrain defDate now item line td s).2.1 :=
    cou_train_evolves line item.tripId _ _ false none defDate now _
  have e4 : Evolves (dpTrain defDate now item line td s).2.1
      (dpStops defDate now item line td s).1 :=
    stopoversFold_evolves _ 0 td.stopovers _
  have e5 : Evolves (dpStops defDate now item line td s).1
      (dpRemarks defDate now item line td s).1 :=
    remarksFold_evolves _ td.remarks _
  have e6 : Evolves (dpRemarks defDate now item line td s).1
      (dpComp defDate now item line td comp s).1 :=
    compPhase_evolves line _ td comp _
  have hevC : Evolves (dpComp defDate now item line td comp s).1 t := hev
  have hevR : Evolves (dpRemarks defDate now item line td s).1 t :=
    evolves_trans e6 hevC
  have hevSt : Evolves (dpStops defDate now item line td s).1 t :=
    evolves_trans e5 hevR
  have hevT : Evolves (dpTrain defDate now item line td s).2.1 t :=
    evolves_trans e4 hevSt
  have hevD : Evolves (dpDest td s).2.1 t := evolves_trans e3 hevT
  have hevO : Evolves (dpOrigin td s).2.1 t := evolves_trans e2 hevD
  obtain ⟨hO_S, hO_F, hO_id, _⟩ := gco_replay (stationDataOf td.origin) s t hevO
  have hO_S' : (dpOrigin td t).2.1 = t := hO_S
  have hDest_eq : dpDest td t = gco (stationDataOf td.destination) t := by
    unfold dpDest
    rw [hO_S']
  obtain ⟨hD_S, hD_F, hD_id, _⟩ :=
    gco_replay (stationDataOf td.destination) (dpOrigin td s).2.1 t hevD
  have hD_S' : (dpDest td t).2.1 = t := by rw [hDest_eq]; exact hD_S
  have hD_F' : FoundOnly (dpDest td t).2.2 := by rw [hDest_eq]; exact hD_F
  have hTrain_eq : dpTrain defDate now₂ item line₂ td t =
      create_or_update_train line₂ item.tripId (dpOrigin td t).1 (dpDest td t).1
        false none defDate now₂ t := by
    unfold dpTrain
    rw [hD_S']
  obtain ⟨hT_id, hT_F⟩ := cou_train_replay line line₂ (dpOrigin td s).1
    (dpDest td s).1 (dpOrigin td t).1 (dpDest td t).1 item.tripId false
    defDate now now₂ (dpDest td s).2.1 t hid hevT
  have hT_id' : (dpTrain defDate now₂ item line₂ td t).1.id =
      (dpTrain defDate now item line td s).1.id := by
    rw [hTrain_eq]; exact hT_id
  have hT_F' : FoundOnly (dpTrain defDate now₂ item line₂ td t).2.2 := by
    rw [hTrain_eq]; exact hT_F
  have hevT₂ : Evolves t (dpTrain defDate now₂ item line₂ td t).2.1 := by
    rw [hTrain_eq]
    exact cou_train_evolves line₂ item.tripId _ _ false none defDate now₂ t
  have hevStops : Evolves (dpStops defDate now item line td s).1
      (dpTrain defDate now₂ item line₂ td t).2.1 :=
    evolves_trans hevSt hevT₂
  obtain ⟨hS_S, hS_F⟩ := stopoversFold_replay
    (dpTrain defDate now item line td s).1
    (dpTrain defDate now₂ item line₂ td t).1 0 td.stopovers
    (dpTrain defDate now item line td s).2.1
    (dpTrain defDate now₂ item line₂ td t).2.1 hT_id' hevStops
  have hS_S' : (dpStops defDate now₂ item line₂ td t).1 =
      (dpTrain defDate now₂ item line₂ td t).2.1 := hS_S
  have hS_F' : FoundOnly (dpStops defDate now₂ item line₂ td t).2 := hS_F
  have hRem_eq : dpRemarks defDate now₂ item line₂ td t =
      remarksFold (dpTrain defDate now₂ item line₂ td t).1 td.remarks
        (dpTrain defDate now₂ item line₂ td t).2.1 := by
    unfold dpRemarks
    rw [hS_S']
  have hevRem : Evolves (dpRemarks defDate now item line td s).1
      (dpTrain defDate now₂ item line₂ td t).2.1 :=
    evolves_trans hevR hevT₂
  obtain ⟨hR_S, hR_F⟩ := remarksFold_replay
    (dpTrain defDate now item line td s).1
    (dpTrain defDate now₂ item line₂ td t).1 td.remarks
    (dpStops defDate now item line td s).1
    (dpTrain defDate now₂ item line₂ td t).2.1 hT_id' hevRem
  have hR_S' : (dpRemarks defDate now₂ item line₂ td t).1 =
      (dpTrain defDate now₂ item line₂ td t).2.1 := by
    rw [hRem_eq]; exact hR_S
  have hR_F' : FoundOnly (dpRemarks defDate now₂ item line₂ td t).2 := by
    rw [hRem_eq]; exact hR_F
  have hComp_eq : dpComp defDate now₂ item line₂ td comp t =
      compositionPhase line₂ (dpTrain defDate now₂ item line₂ td t).1 td comp
        (dpTrain defDate now₂ item line₂ td t).2.1 := by
    unfold dpComp
    rw [hR_S']
  have hcT1 : (dpTrain defDate now item line td s).1.data.cancelledOf = false :=
    cou_train_result_cancelled line item.tripId _ _ false none defDate now _
  have hcT2 : (dpTrain defDate now₂ item line₂ td t).1.data.cancelledOf = false := by
    rw [hTrain_eq]
    exact cou_train_result_cancelled line₂ item.tripId _ _ false none defDate now₂ t
  have hevComp : Evolves (dpComp defDate now item line td comp s).1
      (dpTrain defDate now₂ item line₂ td t).2.1 :=
    evolves_trans hevC hevT₂
  obtain ⟨hC_S, hC_F, hC_err⟩ := compPhase_replay line line₂
    (dpTrain defDate now item line td s).1
    (dpTrain defDate now₂ item line₂ td t).1 td comp
    (dpRemarks defDate now item line td s).1
    (dpTrain defDate now₂ item line₂ td t).2.1 hT_id' hcT1 hcT2 hevComp
  have hC_F' : FoundOnly (dpComp defDate now₂ item line₂ td comp t).2.1 := by
    rw [hComp_eq]; exact hC_F
  have hC_err' : (dpComp defDate now₂ item line₂ td comp t).2.2 =
      (dpComp defDate now item line td comp s).2.2 := by
    rw [hComp_eq]; exact hC_err
  exact ⟨foundOnly_append (foundOnly_append (foundOnly_append
    (foundOnly_append (foundOnly_append hO_F hD_F') hT_F') hS_F') hR_F') hC_F',
    hC_err'⟩

theorem reconcileTrip_replay (defDate now now₂ : Nat) (t : TripInput)
    (s u : Store)
    (hev : Evolves (reconcileTrip defDate now t s).1 u) :
    FoundOnly (reconcileTrip defDate now₂ t u).2.1 ∧
      (reconcileTrip defDate now₂ t u).2.2 =
        (reconcileTrip defDate now t s).2.2 := by
  cases h : t.detail with
  | transportError e =>
      rw [reconcileTrip_transport h, reconcileTrip_transport h]
      refine ⟨?_, rfl⟩
      intro p hp
      simp only [List.mem_singleton] at hp
      subst hp
      simp [eventOk]
  | httpError st =>
      rw [reconcileTrip_noDetail h] at hev
      obtain ⟨hS, hF, _⟩ := opLinePhase_replay t.item s u hev
      rw [reconcileTrip_noDetail h, reconcileTrip_noDetail h]
      refine ⟨?_, rfl⟩
      intro p hp
      rcases List.mem_cons.mp hp with h1 | h2
      · subst h1; simp [eventOk]
      · exact hF p h2
  | ok td =>
      rw [reconcileTrip_ok_store h] at hev
      have hevOL : Evolves (opLinePhase t.item s).2.1 u :=
        evolves_trans (detailPhase_evolves defDate now t.item
          (opLinePhase t.item s).1 td t.comp (opLinePhase t.item s).2.1) hev
      obtain ⟨hOL_S, hOL_F, hOL_id⟩ := opLinePhase_replay t.item s u hevOL
      obtain ⟨hDP_F, hDP_err⟩ := detailPhase_replay defDate now now₂ t.item
        (opLinePhase t.item s).1 (opLinePhase t.item u).1 td t.comp
        (opLinePhase t.item s).2.1 u hOL_id hev
      constructor
      · rw [reconcileTrip_ok_trace h, hOL_S]
        intro p hp
        rcases List.mem_cons.mp hp with h1 | h2
        · subst h1; simp [eventOk]
        · rcases List.mem_append.mp h2 with h3 | h4
          · exact hOL_F p h3
          · exact hDP_F p h4
      · rw [reconcileTrip_ok_err h, reconcileTrip_ok_err h, hOL_S]
        exact hDP_err

theorem runTrips_replay (defDate now now₂ : Nat) (l : List TripInput)
    (s u : Store)
    (hev : Evolves (runTrips defDate now l s).1 u) :
    FoundOnly (runTrips defDate now₂ l u).2.1 := by
  induction l generalizing s u with
  | nil => exact foundOnly_nil
  | cons t rest ih =>
      have hstep : Evolves (reconcileTrip defDate now t s).1
          (runTrips defDate now (t :: rest) s).1 := by
        cases h : (reconcileTrip defDate now t s).2.2 with
        | some e => rw [runTrips_cons_err h]; exact evolves_refl _
        | none => rw [runTrips_cons_ok h]; exact runTrips_evolves defDate now rest _
      have hevTrip : Evolves (reconcileTrip defDate now t s).1 u :=
        evolves_trans hstep hev
      obtain ⟨hF, herr⟩ := reconcileTrip_replay defDate now now₂ t s u hevTrip
      cases h : (reconcileTrip defDate now t s).2.2 with
      | some e =>
          have h₂ : (reconcileTrip defDate now₂ t u).2.2 = some e := by
            rw [herr, h]
          rw [runTrips_cons_err h₂]
          exact hF
      | none =>
          have h₂ : (reconcileTrip defDate now₂ t u).2.2 = none := by
            rw [herr, h]
          rw [runTrips_cons_ok h₂]
          refine foundOnly_append hF ?_
          have hev' : Evolves
              (runTrips defDate now rest (reconcileTrip defDate now t s).1).1
              (reconcileTrip defDate now₂ t u).1 := by
            rw [runTrips_cons_ok h] at hev
            exact evolves_trans hev (reconcileTrip_evolves defDate now₂ t u)
          exact ih _ _ hev'

/-! ## Further helpers for the claim theorems -/

theorem filtered_train_list_eq (l : List TripInput) :
    filtered_train_list l = l :=
  List.filter_eq_self.mpr (fun _ _ => rfl)

/-- Number of trip-detail fetches for a given trip id in a trace. -/
def countTripFetch (tr : Trace) (tid : String) : Nat :=
  tr.countP (fun p => decide (p.1 = Event.tripFetch tid))

/-- The backing store holds a train whose `trip_id` is `tid`. -/
def hasTrainWithTrip (s : Store) (tid : String) : Bool :=
  s.entities.any (fun e =>
    match e.data with
    | .train _ _ t _ _ _ _ => decide (t = tid)
    | _ => false)

theorem gco_lookup_mem (d : EntityData) (s : Store) :
    ∃ c st, (Event.lookup d.key c, st) ∈ (gco d s).2.2 := by
  cases hm : matchesFor d.key s with
  | nil => rw [gco_nil hm]; exact ⟨0, s, by simp⟩
  | cons r rest => rw [gco_cons hm]; exact ⟨(r :: rest).length, s, by simp⟩

/-- The event concerns the train-collection of the backing store, and its
date field (lookup-key date or created-payload date) is `defDate`. Events
about other collections satisfy it trivially. -/
def trainDateOk (defDate : Nat) : Event → Prop
  | .lookup (.train _ d _) _ => d = defDate
  | .create _ (.train _ d _ _ _ _ _) => d = defDate
  | _ => True

/-- The event is a stopover lookup or stopover create for `(train tid,
stop_index i)`. -/
def stopoverEventAt (tid i : Nat) : Event → Bool
  | .lookup (.stopover t j) _ => decide (t = tid) && decide (j = i)
  | .create _ (.stopover t j _ _ _ _ _ _) => decide (t = tid) && decide (j = i)
  | _ => false

theorem cou_train_now_irrelevant (line : Entity) (tripId : String)
    (origin destination : Entity) (c : Bool) (defDate n n₂ : Nat) (s : Store) :
    create_or_update_train line tripId origin destination c none defDate n s =
      create_or_update_train line tripId origin destination c none defDate n₂ s :=
  rfl

theorem detailPhase_now_irrelevant (defDate n n₂ : Nat) (item : BoardItem)
    (line : Entity) (td : TripDetails) (comp : Option String) (s : Store) :
    detailPhase defDate n item line td comp s =
      detailPhase defDate n₂ item line td comp s :=
  rfl

theorem reconcileTrip_now_irrelevant (defDate n n₂ : Nat) (t : TripInput)
    (s : Store) :
    reconcileTrip defDate n t s = reconcileTrip defDate n₂ t s := by
  cases h : t.detail with
  | transportError e => rw [reconcileTrip_transport h, reconcileTrip_transport h]
  | httpError st => rw [reconcileTrip_noDetail h, reconcileTrip_noDetail h]
  | ok td =>
      rw [reconcileTrip_ok h, reconcileTrip_ok h,
        detailPhase_now_irrelevant defDate n n₂]

theorem cou_train_trace_dateOk (line : Entity) (tripId : String)
    (origin destination : Entity) (c : Bool) (defDate now : Nat) (s : Store) :
    ∀ p ∈ (create_or_update_train line tripId origin destination c none
        defDate now s).2.2,
      trainDateOk defDate p.1 := by
  intro p hp
  cases hm : matchesFor
      (.train line.id (effectiveTrainDate defDate none now) tripId) s with
  | nil =>
      rw [cou_train_nil hm] at hp
      simp only [List.mem_cons, List.mem_singleton, List.not_mem_nil, or_false] at hp
      rcases hp with h | h <;> subst h <;> exact rfl
  | cons r rest =>
      by_cases hc : r.data.cancelledOf = c
      · rw [cou_train_found_eq hm hc] at hp
        simp only [List.mem_singleton] at hp
        subst hp
        exact rfl
      · rw [cou_train_found_ne hm hc] at hp
        simp only [List.mem_cons, List.mem_singleton, List.not_mem_nil, or_false] at hp
        rcases hp with h | h <;> subst h
        · exact rfl
        · trivial

theorem gco_station_eventAt_false (sp : StopPlace) (s : Store) (tid i : Nat) :
    ∀ p ∈ (gco (stationDataOf sp) s).2.2, stopoverEventAt tid i p.1 = false := by
  intro p hp
  obtain ⟨_, hev | hev⟩ := gco_trace _ _ p hp
  · obtain ⟨c, hc⟩ := hev
    rw [hc]
    rfl
  · rw [hev]
    rfl

theorem cous_eventAt_imp (idx : Nat) (so : StopoverData) (train : Entity)
    (s : Store) (i : Nat) :
    ∀ p ∈ (create_or_update_stopover idx so train s).2.2,
      stopoverEventAt train.id i p.1 = true → i = idx := by
  intro p hp htrue
  have hp' : p ∈ (gco (stationDataOf so.stop) s).2.2 ++
      (gco (stopoverDataOf train idx (gco (stationDataOf so.stop) s).1 so)
        (gco (stationDataOf so.stop) s).2.1).2.2 := hp
  rcases List.mem_append.mp hp' with h1 | h2
  · rw [gco_station_eventAt_false so.stop s train.id i p h1] at htrue
    cases htrue
  · obtain ⟨_, hev | hev⟩ := gco_trace _ _ p h2
    · obtain ⟨c, hc⟩ := hev
      rw [hc] at htrue
      simp [stopoverEventAt, stopoverDataOf, EntityData.key] at htrue
      omega
    · rw [hev] at htrue
      simp [stopoverEventAt, stopoverDataOf] at htrue
      omega

theorem cous_eventAt_self (idx : Nat) (so : StopoverData) (train : Entity)
    (s : Store) :
    ∃ p ∈ (create_or_update_stopover idx so train s).2.2,
      stopoverEventAt train.id idx p.1 = true := by
  obtain ⟨c, st, hmem⟩ := gco_lookup_mem
    (stopoverDataOf train idx (gco (stationDataOf so.stop) s).1 so)
    (gco (stationDataOf so.stop) s).2.1
  refine ⟨(Event.lookup (stopoverDataOf train idx
    (gco (stationDataOf so.stop) s).1 so).key c, st), ?_, ?_⟩
  · have : (Event.lookup (stopoverDataOf train idx
        (gco (stationDataOf so.stop) s).1 so).key c, st) ∈
        (gco (stationDataOf so.stop) s).2.2 ++
          (gco (stopoverDataOf train idx (gco (stationDataOf so.stop) s).1 so)
            (gco (stationDataOf so.stop) s).2.1).2.2 :=
      List.mem_append.mpr (Or.inr hmem)
    exact this
  · simp [stopoverEventAt, stopoverDataOf, EntityData.key]

theorem stopoversFold_eventAt_imp (train : Entity) (b : Nat)
    (sos : List StopoverData) (s : Store) (k : Nat) :
    ∀ p ∈ (stopoversFold train b sos s).2,
      stopoverEventAt train.id k p.1 = true →
      ∃ j, ∃ hj : j < sos.length, k = b + j ∧
        (sos.get ⟨j, hj⟩).cancelledKey = none := by
  induction sos generalizing b s with
  | nil => intro p hp; simp [stopoversFold] at hp
  | cons so rest ih =>
      intro p hp htrue
      cases hc : so.cancelledKey.isSome with
      | true =>
          rw [stopoversFold_cons_skip hc] at hp
          obtain ⟨j, hj, hk, hnone⟩ := ih (b + 1) s p hp htrue
          exact ⟨j + 1, Nat.succ_lt_succ hj, by omega, hnone⟩
      | false =>
          rw [stopoversFold_cons_go hc] at hp
          rcases List.mem_append.mp hp with h1 | h2
          · have hkb := cous_eventAt_imp b so train s k p h1 htrue
            refine ⟨0, by simp, by omega, ?_⟩
            rcases hopt : so.cancelledKey with _ | bv
            · simpa using hopt
            · rw [hopt] at hc
              simp at hc
          · obtain ⟨j, hj, hk, hnone⟩ := ih (b + 1) _ p h2 htrue
            exact ⟨j + 1, Nat.succ_lt_succ hj, by omega, hnone⟩

theorem stopoversFold_eventAt_exists (train : Entity) (b : Nat)
    (sos : List StopoverData) (s : Store) :
    ∀ j, ∀ hj : j < sos.length,
      (sos.get ⟨j, hj⟩).cancelledKey.isSome = false →
      ∃ p ∈ (stopoversFold train b sos s).2,
        stopoverEventAt train.id (b + j) p.1 = true := by
  induction sos generalizing b s with
  | nil => intro j hj; simp at hj
  | cons so rest ih =>
      intro j hj hkey
      cases j with
      | zero =>
          have hc : so.cancelledKey.isSome = false := hkey
          rw [stopoversFold_cons_go hc]
          obtain ⟨p, hmem, htrue⟩ := cous_eventAt_self b so train s
          exact ⟨p, List.mem_append.mpr (Or.inl hmem), htrue⟩
      | succ j' =>
          cases hc : so.cancelledKey.isSome with
          | true =>
              rw [stopoversFold_cons_skip hc]
              obtain ⟨p, hmem, htrue⟩ :=
                ih (b + 1) s j' (Nat.lt_of_succ_lt_succ hj) hkey
              have harith : b + (j' + 1) = (b + 1) + j' := by omega
              rw [harith]
              exact ⟨p, hmem, htrue⟩
          | false =>
              rw [stopoversFold_cons_go hc]
              obtain ⟨p, hmem, htrue⟩ :=
                ih (b + 1) _ j' (Nat.lt_of_succ_lt_succ hj) hkey
              have harith : b + (j' + 1) = (b + 1) + j' := by omega
              rw [harith]
              exact ⟨p, List.mem_append.mpr (Or.inr hmem), htrue⟩

/-! ## Concrete example data, used by the claim witnesses -/

def exStopA : StopPlace := ⟨8000001, "Alpha", 10, 20⟩

def exStopB : StopPlace := ⟨8000002, "Beta", 30, 40⟩

/-- A stopover entry without a `'cancelled'` key. -/
def exSo1 : StopoverData := ⟨exStopA, none, some "7", some "0900", none, none, none⟩

/-- A stopover entry whose dict has a `'cancelled'` key with value `false`. -/
def exSo2 : StopoverData := ⟨exStopB, some false, some "4", some "0930", none, some "0929", none⟩

/-- Another stopover entry without a `'cancelled'` key. -/
def exSo3 : StopoverData := ⟨exStopB, none, some "5", some "1000", none, some "0958", none⟩

def exTd : TripDetails := ⟨exStopA, exStopB, [exSo1, exSo2, exSo3], [⟨"delay"⟩]⟩

def exItem (tid : String) : BoardItem :=
  ⟨tid, none, "ICE 1", "DB Fernverkehr AG", "ICE", 1⟩

/-- A trip whose detail fetch succeeds and whose composition data is
available. -/
def exTrip (tid : String) : TripInput := ⟨exItem tid, .ok exTd, some "groupdata"⟩

/-- A trip whose detail fetch raises a connection error. -/
def exTripFail (tid : String) : TripInput :=
  ⟨exItem tid, .transportError .connection, none⟩

def exStore0 : Store := ⟨[], 0⟩

def exLineEnt : Entity := ⟨5, .line 4 "ICE" 1 "ICE 1"⟩

def exStA : Entity := ⟨1, .station 8000001 "Alpha" 10 20⟩

def exStB : Entity := ⟨2, .station 8000002 "Beta" 30 40⟩

/-- A stored train with `cancelled=false`. -/
def exTrainEnt : Entity := ⟨7, .train 5 0 "T1" false 1 2 "ICE 1"⟩

/-- A reconciled train record with `cancelled=true`. -/
def exTrainCancelled : Entity := ⟨7, .train 5 0 "T1" true 1 2 "ICE 1"⟩

/-- A store holding exactly the train `exTrainEnt`. -/
def exStoreT : Store := ⟨[exTrainEnt], 8⟩

/-! ## Claim theorems -/

/-- **C1**: running the full reconciliation sequence a second time on
identical input data creates no new entities: in the second cycle's trace,
every backing-store lookup has `count > 0` (each get-or-create finds the
record already present under its natural key and returns it) and no create
(POST) event occurs — for every entity kind (operator, line, station,
train, stopover, remark, composition), over an arbitrary initial store,
arbitrary input list, and arbitrary wall-clock dates of the two runs. -/
theorem C1_second_run_only_finds (defDate now now₂ : Nat)
    (train_list : List TripInput) (s : Store) :
    FoundOnly (mainCycle defDate now₂ train_list
      (mainCycle defDate now train_list s).1).2 :=
  runTrips_replay defDate now now₂ (filtered_train_list train_list) s
    (runTrips defDate now (filtered_train_list train_list) s).1
    (evolves_refl _)

theorem C1_witness :
    FoundOnly (mainCycle 0 1 [exTrip "T1"]
      (mainCycle 0 0 [exTrip "T1"] exStore0).1).2 :=
  C1_second_run_only_finds 0 0 1 [exTrip "T1"] exStore0

/-- **C2** (code-bug evidence): the deduplication step of `main`
(src/main.py lines 663-666) keeps every entry: inside the comprehension the
name `filtered_train_list` refers to the prior binding `[]` (and the tested
key `'tripID'` does not even match the entries' `'tripId'`), so
`filtered_train_list` is the identity on every input, and a cycle whose
aggregated train list holds the same trip id twice performs two trip-detail
fetches for it instead of the single one the claim states. -/
theorem C2_dedup_keeps_duplicates :
    (∀ l : List TripInput, filtered_train_list l = l) ∧
      filtered_train_list [exTrip "T1", exTrip "T1"] =
        [exTrip "T1", exTrip "T1"] ∧
      countTripFetch
        (mainCycle 0 0 [exTrip "T1", exTrip "T1"] exStore0).2 "T1" = 2 :=
  ⟨filtered_train_list_eq, filtered_train_list_eq _, by decide⟩

/-- **C3** (counterexample): with three trips where the 2nd trip's detail
fetch raises, the code does not reconcile trip 3: trip 3 is never
detail-fetched and no train for it is ever created, contradicting the claim
that the loop continues and trips 1 and 3 are fully reconciled.  Trip 1,
processed before the failure, is reconciled. -/
theorem C3_counterexample :
    countTripFetch (mainCycle 0 0 [exTrip "T1", exTripFail "T2", exTrip "T3"]
      exStore0).2 "T1" = 1 ∧
    countTripFetch (mainCycle 0 0 [exTrip "T1", exTripFail "T2", exTrip "T3"]
      exStore0).2 "T2" = 1 ∧
    countTripFetch (mainCycle 0 0 [exTrip "T1", exTripFail "T2", exTrip "T3"]
      exStore0).2 "T3" = 0 ∧
    hasTrainWithTrip (mainCycle 0 0 [exTrip "T1", exTripFail "T2", exTrip "T3"]
      exStore0).1 "T1" = true ∧
    hasTrainWithTrip (mainCycle 0 0 [exTrip "T1", exTripFail "T2", exTrip "T3"]
      exStore0).1 "T3" = false := by
  decide

/-- **C3** (amended): an error raised while processing a trip is contained
only at the cycle boundary, not per trip: the failing trip is abandoned
(here its fetch raises before any write, so the store is unchanged), every
remaining trip of the cycle is abandoned with it, and the cycle itself
still returns normally — the exception is swallowed by the cycle-level
handler, so the process survives to the next scheduled cycle. -/
theorem C3_amended (defDate now : Nat) (t : TripInput) (rest : List TripInput)
    (s : Store) (e : TErr) (h : t.detail = .transportError e) :
    runTrips defDate now (t :: rest) s =
      (s, [(Event.tripFetch t.item.tripId, s)], some (.fetch e)) ∧
    mainCycle defDate now (t :: rest) s =
      (s, [(Event.tripFetch t.item.tripId, s)]) := by
  have herr : (reconcileTrip defDate now t s).2.2 = some (.fetch e) := by
    rw [reconcileTrip_transport h]
  have h1 : runTrips defDate now (t :: rest) s =
      (s, [(Event.tripFetch t.item.tripId, s)], some (.fetch e)) := by
    rw [runTrips_cons_err herr, reconcileTrip_transport h]
  refine ⟨h1, ?_⟩
  unfold mainCycle
  rw [filtered_train_list_eq, h1]

theorem C3_amended_witness :
    runTrips 0 0 (exTripFail "T2" :: [exTrip "T3"]) exStore0 =
      (exStore0, [(Event.tripFetch "T2", exStore0)], some (.fetch .connection)) ∧
    mainCycle 0 0 (exTripFail "T2" :: [exTrip "T3"]) exStore0 =
      (exStore0, [(Event.tripFetch "T2", exStore0)]) :=
  C3_amended 0 0 (exTripFail "T2") [exTrip "T3"] exStore0 .connection rfl

/-- **C4**: referential integrity of write order within one trip pipeline:
for every event of the `reconcileTrip` trace, taken with the store state at
the moment the request was issued, a line create references an operator
already present, a train create references an already-present line and
already-present origin and destination stations, and every stopover, remark
or composition create references an already-present train.  Hence no write
for a child entity is ever issued before its parents exist: operator before
line, line and both stations before train, train before its stopover,
remark and composition writes. -/
theorem C4_parents_exist_before_child_writes (defDate now : Nat)
    (t : TripInput) (s : Store) :
    ∀ p ∈ (reconcileTrip defDate now t s).2.1, parentsOk p.1 p.2 :=
  reconcileTrip_trace_parentsOk defDate now t s

theorem C4_witness :
    parentsOk ((reconcileTrip 0 0 (exTrip "T1") exStore0).2.1.get
        ⟨4, by decide⟩).1
      ((reconcileTrip 0 0 (exTrip "T1") exStore0).2.1.get ⟨4, by decide⟩).2 :=
  C4_parents_exist_before_child_writes 0 0 (exTrip "T1") exStore0 _
    (List.get_mem _ _ _)

/-- **C5**: when `create_or_update_train` finds an existing train (the
lookup by line, service date and trip id returns at least one record): if
the stored cancelled flag differs from the `cancelled` argument, exactly
one PATCH is issued, its entire payload being the cancelled field, and the
store afterwards differs from before only in that train's cancelled flag;
if the flags agree, zero PATCHes are issued and the store is untouched.
The last conjunct records that patching a train payload rewrites only its
cancelled field — line, date, trip id, origin, destination and name are
never modified. -/
theorem C5_cancelled_patch_frame (line : Entity) (tripId : String)
    (origin destination : Entity) (c : Bool) (defDate now : Nat) (s : Store)
    (r : Entity) (rest : List Entity)
    (h : matchesFor (.train line.id defDate tripId) s = r :: rest) :
    (¬ r.data.cancelledOf = c →
      create_or_update_train line tripId origin destination c none defDate now s =
        (⟨r.id, r.data.setCancelled c⟩,
          ⟨s.entities.map (fun e =>
              if e.id = r.id then ⟨e.id, e.data.setCancelled c⟩ else e),
            s.nextId⟩,
          [(Event.lookup (.train line.id defDate tripId) (r :: rest).length, s),
            (Event.patch r.id c, s)])) ∧
    (r.data.cancelledOf = c →
      create_or_update_train line tripId origin destination c none defDate now s =
        (r, s,
          [(Event.lookup (.train line.id defDate tripId) (r :: rest).length, s)])) ∧
    (∀ l dt tr cc o ds nm,
      (EntityData.train l dt tr cc o ds nm).setCancelled c =
        .train l dt tr c o ds nm) := by
  refine ⟨?_, ?_, fun _ _ _ _ _ _ _ => rfl⟩
  · intro hne
    exact cou_train_found_ne h hne
  · intro heq
    exact cou_train_found_eq h heq

theorem C5_witness :
    create_or_update_train exLineEnt "T1" exStA exStB true none 0 0 exStoreT =
      (⟨7, .train 5 0 "T1" true 1 2 "ICE 1"⟩,
        ⟨[⟨7, .train 5 0 "T1" true 1 2 "ICE 1"⟩], 8⟩,
        [(Event.lookup (.train 5 0 "T1") 1, exStoreT),
          (Event.patch 7 true, exStoreT)]) :=
  (C5_cancelled_patch_frame exLineEnt "T1" exStA exStB true 0 0 exStoreT
    exTrainEnt [] (by decide)).1 (by decide)

/-- **C6**: the composition block is guarded by `if not train['cancelled']`:
for a reconciled train record whose cancelled flag is `true`, the phase
performs no composition fetch and no backing-store interaction at all (its
trace is empty) and leaves the store unchanged — regardless of whether
composition data would be available (the `comp` argument is arbitrary).
Composition records are therefore only ever attached to non-cancelled
trains. -/
theorem C6_no_composition_for_cancelled (line train : Entity)
    (td : TripDetails) (comp : Option String) (s : Store)
    (h : train.data.cancelledOf = true) :
    compositionPhase line train td comp s = (s, [], none) :=
  compPhase_cancelled h

theorem C6_witness :
    compositionPhase exLineEnt exTrainCancelled exTd (some "groupdata")
      exStoreT = (exStoreT, [], none) :=
  C6_no_composition_for_cancelled exLineEnt exTrainCancelled exTd
    (some "groupdata") exStoreT rfl

/-- **C8** (counterexample): a trip-detail exchange ending in HTTP 404 — a
non-success status, no exception raised — makes `get_train_trip` fall
through its `if response.ok:` and return `None`, an absent result; it does
not propagate any error, contradicting the claim. -/
theorem C8_counterexample :
    get_train_trip (.httpError 404) = .ok none ∧
      ∀ e : TErr, get_train_trip (.httpError 404) ≠ .error e := by
  refine ⟨rfl, ?_⟩
  intro e h
  exact Except.noConfusion h

/-- **C8** (amended): `get_train_trip` propagates transport errors to the
caller (every raised exception is re-raised), but on a non-success HTTP
status it returns an absent result (`None`) rather than an error; the board
fetchers map both failure modes to the empty list. -/
theorem C8_amended (st : Nat) (e : TErr) (td : TripDetails)
    (entries : List BoardItem) :
    get_train_trip (.transportError e) = .error e ∧
    get_train_trip (.httpError st) = .ok none ∧
    get_train_trip (.ok td) = .ok (some td) ∧
    get_departure_board (.httpError st) = [] ∧
    get_departure_board (.transportError e) = [] ∧
    get_departure_board (.ok entries) = entries ∧
    get_arrival_board (.httpError st) = [] ∧
    get_arrival_board (.transportError e) = [] :=
  ⟨rfl, rfl, rfl, rfl, rfl, rfl, rfl, rfl⟩

/-- **C9**: Python evaluates the `date: datetime = datetime.today()` default
of `create_or_update_train` once, when the function is defined at process
start; the pipeline always omits the argument.  Hence (1) the effective
date of a call omitting the argument is the frozen definition-time value,
whatever the wall clock says at call time; (2) the whole per-trip pipeline
is invariant under the call-time clock: two calls at different times —
even on different calendar days — behave identically; (3) every
train-collection request the function issues (lookup key and created
payload alike) carries the definition-time date. -/
theorem C9_definition_time_date (defDate now now₂ : Nat) :
    effectiveTrainDate defDate none now = defDate ∧
    (∀ t s, reconcileTrip defDate now t s = reconcileTrip defDate now₂ t s) ∧
    (∀ (line origin destination : Entity) (tripId : String) (c : Bool)
        (s : Store),
      ∀ p ∈ (create_or_update_train line tripId origin destination c none
          defDate now s).2.2,
        trainDateOk defDate p.1) :=
  ⟨rfl, fun t s => reconcileTrip_now_irrelevant defDate now now₂ t s,
    fun line origin destination tripId c s =>
      cou_train_trace_dateOk line tripId origin destination c defDate now s⟩

theorem C9_witness :
    effectiveTrainDate 0 none 999 = 0 ∧
      reconcileTrip 0 1 (exTrip "T1") exStore0 =
        reconcileTrip 0 2 (exTrip "T1") exStore0 :=
  ⟨(C9_definition_time_date 0 999 0).1,
    (C9_definition_time_date 0 1 2).2.1 (exTrip "T1") exStore0⟩

/-- **C10**: in the stopover loop, an entry whose dictionary has a
`'cancelled'` key — whatever the key's value, even `false` — is never
passed to `create_or_update_stopover`: no stopover lookup or create for its
position ever occurs.  An entry without the key is processed with its
ordinal position in the full fetched list as `stop_index`.  Skipped entries
still consume their index, so the stored `stop_index` sequence can have
gaps (the witness writes indices 0 and 2 and skips index 1). -/
theorem C10_cancelled_key_skips_entry (train : Entity)
    (sos : List StopoverData) (s : Store) (i : Nat) (hi : i < sos.length) :
    ((sos.get ⟨i, hi⟩).cancelledKey.isSome = true →
      ∀ p ∈ (stopoversFold train 0 sos s).2,
        stopoverEventAt train.id i p.1 = false) ∧
    ((sos.get ⟨i, hi⟩).cancelledKey.isSome = false →
      ∃ p ∈ (stopoversFold train 0 sos s).2,
        stopoverEventAt train.id i p.1 = true) := by
  constructor
  · intro hkey p hp
    cases htrue : stopoverEventAt train.id i p.1 with
    | false => rfl
    | true =>
        obtain ⟨j, hj, hij, hnone⟩ :=
          stopoversFold_eventAt_imp train 0 sos s i p hp htrue
        have hji : j = i := by omega
        subst hji
        have hnone' : (sos.get ⟨j, hi⟩).cancelledKey = none := hnone
        rw [hnone'] at hkey
        simp at hkey
  · intro hkey
    have h := stopoversFold_eventAt_exists train 0 sos s i hi hkey
    simpa using h

theorem C10_witness :
    (∀ p ∈ (stopoversFold exTrainEnt 0 [exSo1, exSo2, exSo3] exStore0).2,
      stopoverEventAt 7 1 p.1 = false) ∧
    (∃ p ∈ (stopoversFold exTrainEnt 0 [exSo1, exSo2, exSo3] exStore0).2,
      stopoverEventAt 7 2 p.1 = true) :=
  ⟨(C10_cancelled_key_skips_entry exTrainEnt [exSo1, exSo2, exSo3] exStore0 1
      (by decide)).1 (by decide),
    (C10_cancelled_key_skips_entry exTrainEnt [exSo1, exSo2, exSo3] exStore0 2
      (by decide)).2 (by decide)⟩

end TrainsCollector
